import Mathlib

set_option maxRecDepth 8000

/-!
Verification of the gomemcached client core against its specification.

The development shallowly embeds the Go sources:
* `memcached/constants.go`, `requests.go`, `responses.go`, `transport.go` —
  the binary protocol codec and status classification;
* the error-wrapping helpers (`resumableError`, `wrapMemcachedResp`,
  `errStatus`, `UnwrapMemcachedError`) and the dispatcher's
  `condRelease` logic;
* the `pool` package (`Pool.Get` / `Put` / `Destroy` / `create`);
* the `consistenthash` package (`HashRing`).

Machine integers are embedded as `Nat` with explicit `% 2^w` at the points
where Go performs fixed-width arithmetic.  Byte strings are `List Nat`
(each element a byte value).  Fallible Go code returns `Except`/`Option`;
a Go runtime panic is a distinguished error value.
-/

namespace MC

/-! ## Constants (`constants.go`, `requests.go`) -/

def REQ_MAGIC : Nat := 0x80
def RES_MAGIC : Nat := 0x81
def HDR_LEN : Nat := 24
def MaxBodyLen : Nat := 22000000

def GET : Nat := 0x00
def SET : Nat := 0x01
def ADD : Nat := 0x02
def REPLACE : Nat := 0x03
def DELETE : Nat := 0x04
def INCREMENT : Nat := 0x05
def DECREMENT : Nat := 0x06
def QUIT : Nat := 0x07
def FLUSH : Nat := 0x08
def GETQ : Nat := 0x09
def NOOP : Nat := 0x0a
def VERSION : Nat := 0x0b
def GETK : Nat := 0x0c
def GETKQ : Nat := 0x0d
def APPEND : Nat := 0x0e
def PREPEND : Nat := 0x0f
def STAT : Nat := 0x10
def SETQ : Nat := 0x11
def ADDQ : Nat := 0x12
def REPLACEQ : Nat := 0x13
def DELETEQ : Nat := 0x14
def INCREMENTQ : Nat := 0x15
def DECREMENTQ : Nat := 0x16
def QUITQ : Nat := 0x17
def FLUSHQ : Nat := 0x18
def APPENDQ : Nat := 0x19
def PREPENDQ : Nat := 0x1a
def SASL_LIST_MECHS : Nat := 0x20
def SASL_AUTH : Nat := 0x21
def SASL_STEP : Nat := 0x22

def SUCCESS : Nat := 0x00
def KEY_ENOENT : Nat := 0x01
def KEY_EEXISTS : Nat := 0x02
def E2BIG : Nat := 0x03
def EINVAL : Nat := 0x04
def NOT_STORED : Nat := 0x05
def DELTA_BADVAL : Nat := 0x06
def AUTHFAIL : Nat := 0x20
def FURTHER_AUTH : Nat := 0x21
def UNKNOWN_COMMAND : Nat := 0x81
def ENOMEM : Nat := 0x82
def TMPFAIL : Nat := 0x86
def UNKNOWN_STATUS : Nat := 0xffff

/-! ## Big-endian byte encoding (`encoding/binary` PutUint16/32/64)

`be2 n`, `be4 n`, `be8 n` are the big-endian bytes that
`binary.BigEndian.PutUintN` writes for the fixed-width truncation of `n`;
the `% 256` on each entry is exactly the byte extraction the Go library
performs, so no separate truncation of `n` is needed. -/

def be2 (n : Nat) : List Nat := [n / 2 ^ 8 % 256, n % 256]

def be4 (n : Nat) : List Nat :=
  [n / 2 ^ 24 % 256, n / 2 ^ 16 % 256, n / 2 ^ 8 % 256, n % 256]

def be8 (n : Nat) : List Nat :=
  [n / 2 ^ 56 % 256, n / 2 ^ 48 % 256, n / 2 ^ 40 % 256, n / 2 ^ 32 % 256,
   n / 2 ^ 24 % 256, n / 2 ^ 16 % 256, n / 2 ^ 8 % 256, n % 256]

/-! ## Request and Response (`requests.go`, `responses.go`) -/

structure Request where
  opcode : Nat
  cas : Nat
  opaq : Nat
  extras : List Nat
  key : List Nat
  body : List Nat
deriving DecidableEq

structure Response where
  opcode : Nat
  status : Nat
  opaq : Nat
  cas : Nat
  extras : List Nat
  key : List Nat
  body : List Nat
deriving DecidableEq

def Request.Size (r : Request) : Nat :=
  HDR_LEN + r.extras.length + r.key.length + r.body.length

def Response.Size (r : Response) : Nat :=
  HDR_LEN + r.extras.length + r.key.length + r.body.length

/-- `Request.Bytes` / `fillHeaderBytes` of `requests.go`: the wire form
magic | opcode | key_len(2, big endian) | extras_len | data_type=0 |
vbucket=0(2) | total_body_len(4) | opaque(4) | cas(8, left zero when
`cas == 0`) followed by extras, key, body. -/
def Request.Bytes (r : Request) : List Nat :=
  [REQ_MAGIC, r.opcode % 256]
    ++ be2 r.key.length
    ++ [r.extras.length % 256, 0, 0, 0]
    ++ be4 (r.body.length + r.key.length + r.extras.length)
    ++ be4 r.opaq
    ++ (if r.cas ≠ 0 then be8 r.cas else List.replicate 8 0)
    ++ r.extras ++ r.key ++ r.body

/-- `Response.Bytes` / `fillHeaderBytes` of `responses.go`; byte 5 is the
reserved data type and bytes 6-7 carry the status. -/
def Response.Bytes (r : Response) : List Nat :=
  [RES_MAGIC, r.opcode % 256]
    ++ be2 r.key.length
    ++ [r.extras.length % 256, 0]
    ++ be2 r.status
    ++ be4 (r.body.length + r.key.length + r.extras.length)
    ++ be4 r.opaq
    ++ (if r.cas ≠ 0 then be8 r.cas else List.replicate 8 0)
    ++ r.extras ++ r.key ++ r.body

deriving instance DecidableEq for Except

/-- Errors a `Receive` can produce.  `sliceOOB` stands for the Go runtime
panic `slice bounds out of range`, which is how `Response.Receive` fails
when the buffer is shorter than the key/extras region. -/
inductive RecvErr where
  | ioShort
  | badMagic (b : Nat)
  | tooBig (n : Nat)
  | sliceOOB
deriving DecidableEq

/-- `io.ReadFull`: exactly `k` bytes, or an error when the stream is
shorter. -/
def readFull (s : List Nat) (k : Nat) : Option (List Nat) :=
  if k ≤ s.length then some (s.take k) else none

/-- a Go slice expression `l[lo:hi]`: panics (here `none`) unless
`lo ≤ hi ≤ len(l)`. -/
def goSlice (l : List Nat) (lo hi : Nat) : Option (List Nat) :=
  if lo ≤ hi ∧ hi ≤ l.length then some ((l.take hi).drop lo) else none

/-- `Request.Receive` of `requests.go`.  Reads the 24-byte header
(destructuring the stream mirrors the initial `io.ReadFull` of
`HDR_LEN` bytes), rejects a bad magic, computes
`int(Uint32(hdr[8:]) - uint32(klen) - uint32(elen))` — a 32-bit
wraparound subtraction — and rejects it when above `MaxBodyLen`;
then reads `klen+elen+bodyLen` bytes and slices them.  The body field is
populated only under the source's `klen+elen > 0` guard. -/
def Request.Receive (s : List Nat) : Except RecvErr (Request × Nat) :=
  match s with
  | b0 :: b1 :: b2 :: b3 :: b4 :: _b5 :: _b6 :: _b7 ::
    b8 :: b9 :: b10 :: b11 :: b12 :: b13 :: b14 :: b15 ::
    b16 :: b17 :: b18 :: b19 :: b20 :: b21 :: b22 :: b23 :: rest =>
    if b0 ≠ RES_MAGIC ∧ b0 ≠ REQ_MAGIC then .error (.badMagic b0)
    else
      let klen := b2 * 2 ^ 8 + b3
      let elen := b4
      let total := b8 * 2 ^ 24 + b9 * 2 ^ 16 + b10 * 2 ^ 8 + b11
      let bodyLen := (total + (2 ^ 32 - (klen + elen))) % 2 ^ 32
      if bodyLen > MaxBodyLen then .error (.tooBig bodyLen)
      else
        let opq := b12 * 2 ^ 24 + b13 * 2 ^ 16 + b14 * 2 ^ 8 + b15
        let cas := b16 * 2 ^ 56 + b17 * 2 ^ 48 + b18 * 2 ^ 40 + b19 * 2 ^ 32 +
          b20 * 2 ^ 24 + b21 * 2 ^ 16 + b22 * 2 ^ 8 + b23
        match readFull rest (klen + elen + bodyLen) with
        | none => .error .ioShort
        | some buf =>
          let extras := if elen > 0 then buf.take elen else []
          let key := if klen > 0 then (buf.drop elen).take klen else []
          let body := if klen + elen > 0 then buf.drop (klen + elen) else []
          .ok ({ opcode := b1, cas := cas, opaq := opq,
                 extras := extras, key := key, body := body },
               HDR_LEN + (klen + elen + bodyLen))
  | _ => .error .ioShort

/-- `Response.Receive` of `responses.go`.  After the magic check the only
arithmetic is `bodyLen := int(total) - (klen + elen)` over `int`
(which may be negative); the buffer allocated and read is
`klen + elen + bodyLen = total` bytes, and the three slice expressions
panic (`sliceOOB`) when the buffer is too short for them.  There is no
`MaxBodyLen` check here. -/
def Response.Receive (s : List Nat) : Except RecvErr (Response × Nat) :=
  match s with
  | b0 :: b1 :: b2 :: b3 :: b4 :: _b5 :: b6 :: b7 ::
    b8 :: b9 :: b10 :: b11 :: b12 :: b13 :: b14 :: b15 ::
    b16 :: b17 :: b18 :: b19 :: b20 :: b21 :: b22 :: b23 :: rest =>
    if b0 ≠ RES_MAGIC ∧ b0 ≠ REQ_MAGIC then .error (.badMagic b0)
    else
      let klen : Nat := b2 * 2 ^ 8 + b3
      let elen : Nat := b4
      let total : Nat := b8 * 2 ^ 24 + b9 * 2 ^ 16 + b10 * 2 ^ 8 + b11
      let status := b6 * 2 ^ 8 + b7
      let opq := b12 * 2 ^ 24 + b13 * 2 ^ 16 + b14 * 2 ^ 8 + b15
      let cas := b16 * 2 ^ 56 + b17 * 2 ^ 48 + b18 * 2 ^ 40 + b19 * 2 ^ 32 +
        b20 * 2 ^ 24 + b21 * 2 ^ 16 + b22 * 2 ^ 8 + b23
      let bodyLenZ : Int := (total : Int) - ((klen : Int) + (elen : Int))
      match readFull rest total with
      | none => .error .ioShort
      | some buf =>
        match (if elen > 0 then goSlice buf 0 elen else some []),
              (if klen > 0 then goSlice buf elen (klen + elen) else some []),
              (if bodyLenZ > 0 then goSlice buf (klen + elen) buf.length
               else some []) with
        | some extras, some key, some body =>
          .ok ({ opcode := b1, status := status, opaq := opq, cas := cas,
                 extras := extras, key := key, body := body },
               HDR_LEN + total)
        | _, _, _ => .error .sliceOOB
  | _ => .error .ioShort

/-- `Request.prepareExtras`: the opcode-indexed extras layout. -/
def Request.prepareExtras (r : Request) (expiration delta initVal : Nat) :
    Request :=
  if r.opcode = DELETE ∨ r.opcode = DELETEQ ∨ r.opcode = QUIT ∨
     r.opcode = QUITQ ∨ r.opcode = NOOP ∨ r.opcode = VERSION ∨
     r.opcode = APPEND ∨ r.opcode = APPENDQ ∨ r.opcode = PREPEND ∨
     r.opcode = PREPENDQ ∨ r.opcode = STAT ∨ r.opcode = GET ∨
     r.opcode = GETQ ∨ r.opcode = GETK ∨ r.opcode = GETKQ then r
  else if r.opcode = SET ∨ r.opcode = SETQ ∨ r.opcode = ADD ∨
     r.opcode = ADDQ ∨ r.opcode = REPLACE ∨ r.opcode = REPLACEQ then
    { r with extras := be4 0 ++ be4 expiration }
  else if r.opcode = INCREMENT ∨ r.opcode = INCREMENTQ ∨
     r.opcode = DECREMENT ∨ r.opcode = DECREMENTQ then
    { r with extras := be8 delta ++ be8 initVal ++ be4 expiration }
  else if r.opcode = FLUSH ∨ r.opcode = FLUSHQ then
    { r with extras := be4 expiration }
  else r

/-! ## Go errors (`errors.go` of the client, `transport.go`)

A Go error value is modelled structurally: the `errors.New` sentinels are
`base` values identified by their message, a `*Response` used as an error
is `respErr`, and `fmt.Errorf` with one or two `%w` verbs produces
`wrap1` / `wrap2`.  `errors.Is` compares each node of the chain with the
target; `errors.As` looks for the first `*Response` in depth-first
order. -/

inductive GoErr where
  | base (name : String)
  | respErr (r : Response)
  | wrap1 (e : GoErr)
  | wrap2 (e1 e2 : GoErr)
deriving DecidableEq

def ErrCacheMiss : GoErr := .base ("gomemcached: cache miss")
def ErrCASConflict : GoErr := .base ("gomemcached: compare-and-swap conflict")
def ErrNotStored : GoErr := .base ("gomemcached: item not stored")
def ErrServerError : GoErr := .base ("gomemcached: server error")
def ErrMalformedKey : GoErr :=
  .base ("gomemcached: key is too long or contains invalid characters")
def ErrNoServers : GoErr :=
  .base ("gomemcached: no servers configured or available")
def ErrServerNotAvailable : GoErr :=
  .base ("gomemcached: server(s) is not available")
def ErrUnknownCommand : GoErr := .base ("gomemcached: Unknown command")
def ErrDataSizeExceedsLimit : GoErr :=
  .base ("gomemcached: Data size exceeds limit")
def ErrInvalidArguments : GoErr :=
  .base ("gomemcached: Invalid arguments or operation parameters")
def ErrAuthFail : GoErr :=
  .base ("gomemcached: authentication enabled but operation failed")

/-- `errors.Is`: the error itself or anything it wraps equals the
target.  (The sentinels carry no dynamic `Is` method.) -/
def GoErr.goIs : GoErr → GoErr → Bool
  | .base n, t => .base n = t
  | .respErr r, t => .respErr r = t
  | .wrap1 e, t => (GoErr.wrap1 e = t) || e.goIs t
  | .wrap2 e1 e2, t => (GoErr.wrap2 e1 e2 = t) || e1.goIs t || e2.goIs t

/-- `errors.As` specialised to target type `*Response`: first `Response`
in the chain, depth first. -/
def GoErr.goAsResp : GoErr → Option Response
  | .base _ => none
  | .respErr r => some r
  | .wrap1 e => e.goAsResp
  | .wrap2 e1 e2 => e1.goAsResp <|> e2.goAsResp

/-- `resumableError` of `errors.go`. -/
def resumableError (e : GoErr) : Bool :=
  e.goIs ErrCacheMiss || e.goIs ErrCASConflict || e.goIs ErrNotStored ||
    e.goIs ErrMalformedKey

/-- `wrapMemcachedResp` of `errors.go`: the status-indexed error
wrapping; each non-success arm is `fmt.Errorf("%w. %w", sentinel, resp)`. -/
def wrapMemcachedResp (r : Response) : Option GoErr :=
  if r.status = SUCCESS then none
  else if r.status = KEY_ENOENT then some (.wrap2 ErrCacheMiss (.respErr r))
  else if r.status = NOT_STORED ∨ r.status = KEY_EEXISTS then
    some (.wrap2 ErrNotStored (.respErr r))
  else if r.status = EINVAL ∨ r.status = DELTA_BADVAL then
    some (.wrap2 ErrInvalidArguments (.respErr r))
  else if r.status = ENOMEM then some (.wrap2 ErrServerError (.respErr r))
  else if r.status = TMPFAIL then
    some (.wrap2 ErrServerNotAvailable (.respErr r))
  else if r.status = UNKNOWN_COMMAND then
    some (.wrap2 ErrUnknownCommand (.respErr r))
  else if r.status = E2BIG then
    some (.wrap2 ErrDataSizeExceedsLimit (.respErr r))
  else some (.wrap2 ErrServerError (.respErr r))

/-- `errStatus` of `errors.go`. -/
def errStatus (e : GoErr) : Nat :=
  match e.goAsResp with
  | some r => r.status
  | none => UNKNOWN_STATUS

/-- `isFatal` of `responses.go`: `nil` is not fatal; the statuses
`KEY_ENOENT, KEY_EEXISTS, NOT_STORED, TMPFAIL, AUTHFAIL` are not fatal;
everything else is. -/
def isFatal (e : Option GoErr) : Bool :=
  match e with
  | none => false
  | some err =>
    let s := errStatus err
    if s = KEY_ENOENT || s = KEY_EEXISTS || s = NOT_STORED ||
       s = TMPFAIL || s = AUTHFAIL then false
    else true

/-- `UnwrapMemcachedError` of `transport.go` (a `nil` argument yields
`nil`). -/
def UnwrapMemcachedError (e : Option GoErr) : Option Response :=
  match e with
  | none => none
  | some err => err.goAsResp

/-- the error produced by `getResponse` of `transport.go` for a response
that was read successfully: `nil` on SUCCESS, the wrapped response
otherwise. -/
def getResponseErr (r : Response) : Option GoErr := wrapMemcachedResp r

/-- the connection disposition in `Client.send`: after reading response
`r` the source sets `cn.healthy = !isFatal(err)` and `condRelease`
returns the connection to the pool iff
`(err == nil || resumableError(err)) && cn.healthy`.
`true` means released to the pool, `false` means destroyed. -/
def condReleases (r : Response) : Bool :=
  let err := getResponseErr r
  let healthy := !isFatal err
  (match err with
   | none => true
   | some e => resumableError e) && healthy

/-- `legalKey` of the client: length at most 250 and no byte `≤ 0x20` or
equal to `0x7F`. -/
def legalKey (key : List Nat) : Bool :=
  if key.length > 250 then false
  else key.all (fun b => !(b ≤ 0x20 || b = 0x7f))

/-! ## Connection pool (`pool` package)

Sequential embedding of `Pool`.  The buffered channel `store` is a FIFO
list, `storeClose` a flag, and the weighted semaphore a free-permit
counter.  In a single-threaded execution a blocked `sema.Acquire` can
never be satisfied by a concurrent `Release`, so the timed acquire in
`create` succeeds exactly when a permit is free and otherwise returns
after its timeout; likewise `select` takes the channel case exactly when
the channel is non-empty or closed, and `default` otherwise.  The
constructor closure is abstracted by the `newConn` field: `none` models
a nil `newFunc`, `some (.error e)` a failing constructor, `some (.ok c)`
a succeeding one. -/

def ErrClosedPool : GoErr := .base ("pool is closed")
def ErrNewFuncNil : GoErr :=
  .base ("newFunc for pool is nil, can not create connection")
def ErrAcquireTimeout : GoErr :=
  .base ("timeout for Acquire from the pool. Need to increase the maxCap for pool")

structure Pool (α : Type) where
  store : List α
  storeClosed : Bool
  semaFree : Nat
  maxCap : Nat
  newConn : Option (Except GoErr α)

def Pool.isClosed (p : Pool α) : Bool := p.storeClosed

/-- result of the internal `create`: `(any, bool, error)`. -/
inductive CreateRes (α : Type) where
  | timeout
  | errRes (e : GoErr)
  | okRes (c : α)
deriving DecidableEq

/-- `Pool.create`: permit acquisition with bounded wait, closed-pool
check, then the constructor.  A nil constructor returns without
releasing the permit, exactly as in the source. -/
def Pool.create (p : Pool α) : CreateRes α × Pool α :=
  if p.semaFree = 0 then (.timeout, p)
  else
    let p1 : Pool α := { p with semaFree := p.semaFree - 1 }
    if p1.isClosed then (.errRes ErrClosedPool,
      { p1 with semaFree := p1.semaFree + 1 })
    else
      match p1.newConn with
      | none => (.errRes ErrNewFuncNil, p1)
      | some (.error e) => (.errRes e, { p1 with semaFree := p1.semaFree + 1 })
      | some (.ok c) => (.okRes c, p1)

/-- `Pool.Get`: take an idle connection if the channel is ready (a
closed empty channel is ready and yields `ok = false`, hence
`ErrClosedPool`); otherwise `create`; on a timed-out permit wait, one
last non-blocking attempt before `ErrAcquireTimeout`. -/
def Pool.Get (p : Pool α) : Except GoErr α × Pool α :=
  match p.store with
  | c :: rest => (.ok c, { p with store := rest })
  | [] =>
    if p.storeClosed then (.error ErrClosedPool, p)
    else
      match p.create with
      | (.timeout, p1) =>
        match p1.store with
        | c :: rest => (.ok c, { p1 with store := rest })
        | [] =>
          if p1.storeClosed then (.error ErrClosedPool, p1)
          else (.error ErrAcquireTimeout, p1)
      | (.errRes e, p1) => (.error e, p1)
      | (.okRes c, p1) => (.ok c, p1)

/-- `Pool.Put`: dropped when the pool is closed or the buffer is full. -/
def Pool.Put (p : Pool α) (v : α) : Pool α :=
  if p.isClosed then p
  else if p.store.length < p.maxCap then { p with store := p.store ++ [v] }
  else p

/-- `Pool.Pop`: non-blocking dequeue, `false` on a closed or empty
pool. -/
def Pool.Pop (p : Pool α) : (Option α × Bool) × Pool α :=
  if p.isClosed then ((none, false), p)
  else
    match p.store with
    | c :: rest => ((some c, true), { p with store := rest })
    | [] => ((none, false), p)

/-- internal `Pool.close` on one connection: release one permit and run
the destructor (which has no effect on the pool state). -/
def Pool.closeConn (p : Pool α) : Pool α :=
  { p with semaFree := p.semaFree + 1 }

/-- `Pool.Destroy`: idempotent; closes the flag and the channel, drains
every idle connection and closes it (releasing its permit). -/
def Pool.Destroy (p : Pool α) : Pool α :=
  if p.isClosed then p
  else
    { p with storeClosed := true, store := [],
             semaFree := p.semaFree + p.store.length }

/-- state reached after `Destroy` has completed: the close flag is set
and the idle buffer has been drained. -/
def Pool.Destroyed (p : Pool α) : Prop :=
  p.storeClosed = true ∧ p.store = []

/-- operations a client can subsequently run against a pool. -/
inductive PoolOp (α : Type) where
  | get
  | put (v : α)
  | pop
  | closeC
  | destroy

def Pool.applyOp (p : Pool α) : PoolOp α → Pool α
  | .get => (p.Get).2
  | .put v => p.Put v
  | .pop => (p.Pop).2
  | .closeC => p.closeConn
  | .destroy => p.Destroy

/-! ## Consistent hash ring (`consistenthash` package)

`HashRing` holds the replica factor, the sorted replica-hash array, the
`map[uint64][]any` ring (an association list whose key set stays
duplicate-free because it is only modified through `ringSet` /
`ringErase`), and the member identifier set.  Ring members and lookup
values are canonical strings.  The hash function (`Func`) is a structure
field in Go that never changes after construction; it is passed as an
explicit parameter `fn` here so that states stay decidably comparable —
its `uint64` results embed into `Nat`, and the ring only compares hashes
and reduces them modulo small lengths.

`utils.Repr` is not among the provided sources.  Modelled from the spec:
"canonicalize v to a string (for request keys this is the key itself)" —
on strings the canonical form is the string itself. -/

def TopWeight : Nat := 100
def minReplicas : Nat := 256
def ringPrime : Nat := 18245165

abbrev HashFunc := String → Nat

def Repr (node : String) : String := node

/-- `replicaRepr`: `fmt.Sprintf("%s_virtual%s", nodeRepr, strconv.Itoa i)`. -/
def replicaRepr (nodeRepr : String) (i : Nat) : String :=
  nodeRepr ++ "_virtual" ++ toString i

/-- `innerRepr`: `fmt.Sprintf("%d:%v", prime, node)`. -/
def innerRepr (node : String) : String :=
  toString ringPrime ++ ":" ++ node

structure HashRing where
  replicas : Nat
  keys : List Nat
  ring : List (Nat × List String)
  nodes : List String
deriving DecidableEq

def ringLookup (ring : List (Nat × List String)) (h : Nat) : List String :=
  match ring.find? (fun e => e.1 = h) with
  | some e => e.2
  | none => []

def ringHas (ring : List (Nat × List String)) (h : Nat) : Bool :=
  (ring.find? (fun e => e.1 = h)).isSome

def ringSet (ring : List (Nat × List String)) (h : Nat) (slot : List String) :
    List (Nat × List String) :=
  if ringHas ring h then
    ring.map (fun e => if e.1 = h then (h, slot) else e)
  else ring ++ [(h, slot)]

def ringErase (ring : List (Nat × List String)) (h : Nat) :
    List (Nat × List String) :=
  ring.filter (fun e => e.1 ≠ h)

/-- `NewCustomHashRing`: a replica factor below `minReplicas` is raised
to it; the ring starts empty. -/
def NewCustomHashRing (replicas : Nat) : HashRing :=
  { replicas := if replicas < minReplicas then minReplicas else replicas,
    keys := [], ring := [], nodes := [] }

/-- `removeRingNode`: drop every entry for `nodeRepr` from the slot at
`hash`; delete the slot if it becomes empty. -/
def HashRing.removeRingNode (h : HashRing) (hash : Nat) (nodeRepr : String) :
    HashRing :=
  if ringHas h.ring hash then
    let slot := ringLookup h.ring hash
    let newSlot := slot.filter (fun x => Repr x ≠ nodeRepr)
    if newSlot.length > 0 then { h with ring := ringSet h.ring hash newSlot }
    else { h with ring := ringErase h.ring hash }
  else h

/-- one iteration of the `Remove` loop: `sort.Search` for the first key
`≥ hash` (its documented result on the sorted key array is the first
satisfying index, as computed by `findIdx`), excise the key when it is an
exact match, then `removeRingNode`. -/
def HashRing.removeStep (fn : HashFunc) (nodeRepr : String) (h : HashRing)
    (i : Nat) : HashRing :=
  let hash := fn (replicaRepr nodeRepr i)
  let index := h.keys.findIdx (fun k => decide (hash ≤ k))
  let keys1 := if index < h.keys.length ∧ h.keys.getD index 0 = hash
               then h.keys.eraseIdx index else h.keys
  HashRing.removeRingNode { h with keys := keys1 } hash nodeRepr

/-- `HashRing.Remove`: a no-op for a non-member; otherwise the loop over
all `h.replicas` replica positions followed by removal from the member
set. -/
def HashRing.Remove (fn : HashFunc) (h : HashRing) (node : String) :
    HashRing :=
  let nodeR := Repr node
  if ¬ (nodeR ∈ h.nodes) then h
  else
    let h1 := (List.range h.replicas).foldl (HashRing.removeStep fn nodeR) h
    { h1 with nodes := h1.nodes.filter (fun x => x ≠ nodeR) }

/-- one iteration of the `AddWithReplicas` insertion loop. -/
def HashRing.addStep (fn : HashFunc) (node : String) (h : HashRing)
    (i : Nat) : HashRing :=
  let hash := fn (replicaRepr (Repr node) i)
  { h with keys := h.keys ++ [hash],
           ring := ringSet h.ring hash (ringLookup h.ring hash ++ [node]) }

/-- `HashRing.AddWithReplicas`: remove any prior placement, truncate the
replica count to the ring factor, record the member, insert the replica
hashes and re-sort the key array.  `sort.Slice` with a `<` comparator
produces the unique ascending reordering of the key values, here
`insertionSort (· ≤ ·)`. -/
def HashRing.AddWithReplicas (fn : HashFunc) (h : HashRing) (node : String)
    (replicas : Nat) : HashRing :=
  let h0 := h.Remove fn node
  let reps := if replicas > h0.replicas then h0.replicas else replicas
  let nodeR := Repr node
  let h1 := { h0 with nodes :=
    if nodeR ∈ h0.nodes then h0.nodes else h0.nodes ++ [nodeR] }
  let h2 := (List.range reps).foldl (HashRing.addStep fn node) h1
  { h2 with keys := h2.keys.insertionSort (· ≤ ·) }

def HashRing.Add (fn : HashFunc) (h : HashRing) (node : String) : HashRing :=
  h.AddWithReplicas fn node h.replicas

def HashRing.AddWithWeight (fn : HashFunc) (h : HashRing) (node : String)
    (weight : Nat) : HashRing :=
  h.AddWithReplicas fn node (h.replicas * weight / TopWeight)

/-- a Go runtime panic inside `HashRing.Get`. -/
inductive GoPanic where
  | divByZero
deriving DecidableEq

/-- `HashRing.Get`: empty ring map yields `(nil, false)`; then
`sort.Search(len(keys), …) % len(keys)` — an integer `%` that panics in
Go when the key array is empty while the ring map is not; a slot with
several collided members is disambiguated by the secondary hash of
`innerRepr` modulo the slot length. -/
def HashRing.Get (fn : HashFunc) (h : HashRing) (v : String) :
    Except GoPanic (Option String × Bool) :=
  if h.ring.length = 0 then .ok (none, false)
  else
    let hash := fn (Repr v)
    if h.keys.length = 0 then .error .divByZero
    else
      let index := (h.keys.findIdx (fun k => decide (hash ≤ k))) % h.keys.length
      let slot := ringLookup h.ring (h.keys.getD index 0)
      match slot with
      | [] => .ok (none, false)
      | [n] => .ok (some n, true)
      | ns =>
        let innerIndex := fn (innerRepr v)
        let pos := innerIndex % ns.length
        .ok (some (ns.getD pos ("")), true)

def HashRing.GetNodesCount (h : HashRing) : Nat := h.nodes.length

/-- membership mutations a client can perform on a ring. -/
inductive RingOp where
  | add (node : String)
  | addWithReplicas (node : String) (replicas : Nat)
  | addWithWeight (node : String) (weight : Nat)
  | remove (node : String)

def HashRing.applyOp (fn : HashFunc) (h : HashRing) : RingOp → HashRing
  | .add node => h.Add fn node
  | .addWithReplicas node reps => h.AddWithReplicas fn node reps
  | .addWithWeight node w => h.AddWithWeight fn node w
  | .remove node => h.Remove fn node

/-- a ring state built by a sequence of membership operations starting
from `NewCustomHashRing`. -/
def buildRing (fn : HashFunc) (replicas : Nat) (ops : List RingOp) :
    HashRing :=
  ops.foldl (HashRing.applyOp fn) (NewCustomHashRing replicas)

def RingOp.node : RingOp → String
  | .add n => n
  | .addWithReplicas n _ => n
  | .addWithWeight n _ => n
  | .remove n => n

def opsNodes (ops : List RingOp) : List String := ops.map RingOp.node

/-- the hash function produces no collision among the replica
representations of the given nodes over replica indices `< R`. -/
def CollisionFree (fn : HashFunc) (R : Nat) (nodes : List String) : Prop :=
  (nodes.dedup.flatMap
    (fun r => (List.range R).map (fun i => fn (replicaRepr r i)))).Nodup

/-! ### Abstractions for reasoning about ring states

An `Assignment` records, for each member, the replica indices actually
inserted for it; `insertedHashes` lists the corresponding replica
hashes.  `RingInv` ties a concrete `HashRing` state to an assignment. -/

abbrev Assignment := List (String × List Nat)

def nodeHashes (fn : HashFunc) (p : String × List Nat) : List Nat :=
  p.2.map (fun i => fn (replicaRepr p.1 i))

def insertedHashes (fn : HashFunc) (A : Assignment) : List Nat :=
  A.flatMap (nodeHashes fn)

/-- the replica factor `NewCustomHashRing` actually stores. -/
def clampR (R : Nat) : Nat := if R < minReplicas then minReplicas else R

/-- the hash function separates all replica representations of the
given nodes over replica indices below `R` (the usable form of
`CollisionFree`). -/
def HashInj (fn : HashFunc) (R : Nat) (N : List String) : Prop :=
  ∀ r ∈ N, ∀ r' ∈ N, ∀ i < R, ∀ i' < R,
    fn (replicaRepr r i) = fn (replicaRepr r' i') → r = r' ∧ i = i'

/-- every add operation in the sequence places at least one replica. -/
def PosRep (R : Nat) : RingOp → Prop
  | .add _ => True
  | .addWithReplicas _ k => 1 ≤ k
  | .addWithWeight _ w => 1 ≤ R * w / TopWeight
  | .remove _ => True

/-- Modelled from the spec (§4.2 Lookup): hash the canonical string of
`v`, binary-search the sorted replica-hash array for the first hash
`≥` it, wrapping to index 0 past the end; a slot holding several
collided members is indexed by the hash of `"18245165:<v>"` modulo the
slot length. -/
def specSelect (fn : HashFunc) (s : HashRing) (v : String) :
    Option String :=
  let h := fn (Repr v)
  let idx0 := s.keys.findIdx (fun k => decide (h ≤ k))
  let idx := if idx0 = s.keys.length then 0 else idx0
  let slot := ringLookup s.ring (s.keys.getD idx 0)
  match slot with
  | [] => none
  | [n] => some n
  | ns => some (ns.getD (fn (innerRepr v) % ns.length) (""))

/-- the coupling between a concrete ring state and the abstract
assignment of replica indices to members. -/
structure RingInv (fn : HashFunc) (R : Nat) (s : HashRing)
    (A : Assignment) : Prop where
  nodes_eq : s.nodes = A.map Prod.fst
  nodes_nodup : (A.map Prod.fst).Nodup
  idx_bound : ∀ p ∈ A, ∀ i ∈ p.2, i < R
  idx_nodup : ∀ p ∈ A, p.2.Nodup
  repl_eq : s.replicas = R
  keys_sorted : s.keys.Sorted (· ≤ ·)
  keys_perm : s.keys.Perm (insertedHashes fn A)
  ring_keys_perm : (s.ring.map Prod.fst).Perm (insertedHashes fn A)
  lookups : ∀ p ∈ A, ∀ i ∈ p.2,
    ringLookup s.ring (fn (replicaRepr p.1 i)) = [p.1]

/-- `RingInv` without sortedness of the key array: the invariant that
holds while `AddWithReplicas` is inserting, before the final sort. -/
structure RingInvW (fn : HashFunc) (R : Nat) (s : HashRing)
    (A : Assignment) : Prop where
  nodes_eq : s.nodes = A.map Prod.fst
  nodes_nodup : (A.map Prod.fst).Nodup
  idx_bound : ∀ p ∈ A, ∀ i ∈ p.2, i < R
  idx_nodup : ∀ p ∈ A, p.2.Nodup
  repl_eq : s.replicas = R
  keys_perm : s.keys.Perm (insertedHashes fn A)
  ring_keys_perm : (s.ring.map Prod.fst).Perm (insertedHashes fn A)
  lookups : ∀ p ∈ A, ∀ i ∈ p.2,
    ringLookup s.ring (fn (replicaRepr p.1 i)) = [p.1]

/-- the key the `Get` binary search selects: the first stored hash `≥`
the lookup hash, wrapping to the first key past the end (as the `%` in
`m.keys[index % len(m.keys)]` does on the `sort.Search` result). -/
def selKey (keys : List Nat) (h : Nat) : Nat :=
  keys.getD ((keys.findIdx (fun k => decide (h ≤ k))) % keys.length) 0

/-- an executable strict-ascent check used to certify hash-collision
freedom on concrete hash tables. -/
def strictChain : List Nat → Bool
  | [] => true
  | [_] => true
  | a :: b :: rest => a < b && strictChain (b :: rest)

/-! ### Concrete rings exercising slot collisions

`fn4` sends all three replica representations `a_virtual0`,
`b_virtual0`, `n_virtual0` to the same hash 5 and everything else
(including the lookup value `v` and the secondary representation) to 3;
`fn5` is constant.  `fnW` is collision-free on the members `a`, `b`: it
reads the decimal replica index back off the replica representation. -/

def fn4 : HashFunc := fun s =>
  if s = "a_virtual0" ∨ s = "b_virtual0" ∨ s = "n_virtual0" then 5 else 3

def fn5 : HashFunc := fun _ => 5

def fnW : HashFunc := fun s =>
  (if s.data.headD 'z' = 'a' then 2 else 600) +
    (s.data.drop 9).foldl (fun a c => 10 * a + (c.toNat - 48)) 0

def ops4 : List RingOp :=
  [.addWithReplicas "a" 1, .addWithReplicas "b" 1, .addWithReplicas "n" 1]

def ops5 : List RingOp :=
  [.addWithReplicas "a" 1, .addWithReplicas "b" 1, .remove "a"]

def opsW : List RingOp := [.addWithReplicas "a" 1, .addWithReplicas "b" 1]

def opsW5 : List RingOp := [.addWithReplicas "a" 1]

/-- the state `buildRing fn4 0 ops4` evaluates to. -/
def ringS3 : HashRing :=
  { replicas := 256, keys := [5, 5, 5], ring := [(5, ["a", "b", "n"])],
    nodes := ["a", "b", "n"] }

/-- the state `ringS3.Remove fn4 "n"` evaluates to. -/
def ringS4 : HashRing :=
  { replicas := 256, keys := [5, 5], ring := [(5, ["a", "b"])],
    nodes := ["a", "b"] }

/-- the fixed point of the `Remove fn4 "n"` loop after replica index 0. -/
def ringS3mid : HashRing :=
  { replicas := 256, keys := [5, 5], ring := [(5, ["a", "b"])],
    nodes := ["a", "b", "n"] }

/-- the state `buildRing fn5 0 [ops5 head ops]` reaches before its
`remove` operation. -/
def ringT2 : HashRing :=
  { replicas := 256, keys := [5, 5], ring := [(5, ["a", "b"])],
    nodes := ["a", "b"] }

/-- the fixed point of the `Remove fn5 "a"` loop: both copies of key 5
excised, the slot reduced to `["b"]`. -/
def ringT2mid : HashRing :=
  { replicas := 256, keys := [], ring := [(5, ["b"])],
    nodes := ["a", "b"] }

/-- the state `buildRing fn5 0 ops5` evaluates to. -/
def ringT5 : HashRing :=
  { replicas := 256, keys := [], ring := [(5, ["b"])], nodes := ["b"] }

/-! ## Client single-key and multi-key flows (dispatcher)

Keys are Go strings, i.e. byte strings, embedded as `List Nat`.  Each
public operation validates the key, routes through the ring, and then
performs connection acquisition and I/O; the post-routing remainder is
abstracted by a continuation `cont` on the selected node, and the ring
lookup by `route` (`hr.Get` restricted to the found flag). -/

/-- preamble of `Client.Store` (and structurally of `Get`, `Delete`,
`Delta`, `Append`): key validation, then ring selection, then the rest. -/
def StoreFlow (route : List Nat → Option String) (key : List Nat)
    (cont : String → Except GoErr Response) : Except GoErr Response :=
  if ¬ legalKey key then .error ErrMalformedKey
  else
    match route key with
    | none => .error ErrNoServers
    | some node => cont node

def GetFlow (route : List Nat → Option String) (key : List Nat)
    (cont : String → Except GoErr Response) : Except GoErr Response :=
  if ¬ legalKey key then .error ErrMalformedKey
  else
    match route key with
    | none => .error ErrNoServers
    | some node => cont node

def DeleteFlow (route : List Nat → Option String) (key : List Nat)
    (cont : String → Except GoErr Response) : Except GoErr Response :=
  if ¬ legalKey key then .error ErrMalformedKey
  else
    match route key with
    | none => .error ErrNoServers
    | some node => cont node

/-- `Client.Delta` returns `(newValue uint64, err)`. -/
def DeltaFlow (route : List Nat → Option String) (key : List Nat)
    (cont : String → Except GoErr Nat) : Except GoErr Nat :=
  if ¬ legalKey key then .error ErrMalformedKey
  else
    match route key with
    | none => .error ErrNoServers
    | some node => cont node

def AppendFlow (route : List Nat → Option String) (key : List Nat)
    (cont : String → Except GoErr Response) : Except GoErr Response :=
  if ¬ legalKey key then .error ErrMalformedKey
  else
    match route key with
    | none => .error ErrNoServers
    | some node => cont node

def assocAppend (m : List (String × List (List Nat))) (node : String)
    (k : List Nat) : List (String × List (List Nat)) :=
  if node ∈ m.map Prod.fst then
    m.map (fun e => if e.1 = node then (e.1, e.2 ++ [k]) else e)
  else m ++ [(node, [k])]

/-- `getNodesForKeys`: partition the keys by owning node; the first
illegal key aborts the whole call with a wrapped `ErrMalformedKey`
(`fmt.Errorf` with one `%w`). -/
def getNodesForKeysAux (route : List Nat → Option String)
    (acc : List (String × List (List Nat))) :
    List (List Nat) → Except GoErr (List (String × List (List Nat)))
  | [] => .ok acc
  | k :: rest =>
    if ¬ legalKey k then .error (.wrap1 ErrMalformedKey)
    else
      match route k with
      | some node => getNodesForKeysAux route (assocAppend acc node k) rest
      | none => getNodesForKeysAux route acc rest

def getNodesForKeys (route : List Nat → Option String)
    (keys : List (List Nat)) : Except GoErr (List (String × List (List Nat))) :=
  getNodesForKeysAux route [] keys

/-! ### MultiGet (`Client.MultiGet`)

The single-key fast path receives the response of `Client.Get`; the
multi-key path writes GETQ requests recording `opaque ↦ key`, a NOOP
sentinel, and then reads responses.  `getResponse` classifies each
received response through `wrapMemcachedResp`; the loop stops on a fatal
classification or on the sentinel.  The local read error `cnErr` is
never joined into MultiGet's returned error — only a connection
acquisition failure is (`singleError`) — so the loop result is just the
collected `key ↦ body` entries plus how the loop ended. -/

/-- the `len(keys) == 1` fast path of `MultiGet`, given the response the
inner `Get` produced: `SUCCESS` contributes `key ↦ body` (with a `nil`
error), `KEY_ENOENT` clears the error, anything else surfaces it. -/
def multiGetSingle (key : List Nat) (r : Response) :
    List (List Nat × List Nat) × Option GoErr :=
  let err := getResponseErr r
  if r.status = SUCCESS then ([(key, r.body)], err)
  else if r.status = KEY_ENOENT then ([], none)
  else ([], err)

def lookupAssoc (m : List (Nat × List Nat)) (k : Nat) : Option (List Nat) :=
  match m.find? (fun e => e.1 = k) with
  | some e => some e.2
  | none => none

/-- how the MultiGet read loop terminated. -/
inductive LoopEnd where
  | sentinel
  | fatalStop
  | ranOut
deriving DecidableEq

/-- the response loop of `MultiGet` over the responses the server sends
back on one connection: fatal classification stops the loop (the
connection is marked unhealthy), the NOOP with the sentinel opaque ends
the batch, and a response adds `key ↦ body` exactly when its opaque is
recorded and its classification error is `nil`. -/
def multiGetLoop (idToKey : List (Nat × List Nat)) (noopOpq : Nat) :
    List Response → List (List Nat × List Nat) × LoopEnd
  | [] => ([], .ranOut)
  | r :: rest =>
    let cnErr := getResponseErr r
    if isFatal cnErr then ([], .fatalStop)
    else if r.opcode = NOOP ∧ r.opaq = noopOpq then ([], .sentinel)
    else
      let entry : List (List Nat × List Nat) :=
        match lookupAssoc idToKey r.opaq with
        | some key => if cnErr = none then [(key, r.body)] else []
        | none => []
      let res := multiGetLoop idToKey noopOpq rest
      (entry ++ res.1, res.2)

/-! ## Theorems -/

/-- a request as each dispatcher operation builds it before
`prepareExtras`: no extras yet. -/
def bareReq (op : Nat) : Request :=
  { opcode := op, cas := 0, opaq := 0, extras := [], key := [], body := [] }

/-- the per-status disposition asserted by the specification's error
table (stated from the spec's words, for comparison with the code):
statuses it marks *resumable*. -/
def specResumableStatus (s : Nat) : Bool :=
  decide (s = KEY_ENOENT) || decide (s = NOT_STORED) ||
  decide (s = KEY_EEXISTS) || decide (s = EINVAL) ||
  decide (s = DELTA_BADVAL) || decide (s = E2BIG) || decide (s = TMPFAIL)

/-- a response with the given status and no payload, as used in the
concrete examples below. -/
def respWith (s : Nat) : Response :=
  { opcode := SET, status := s, opaq := 0, cas := 0, extras := [],
    key := [], body := [] }

/-- the decoded form of an oversized response frame: no key, no extras,
a body of 22,000,001 bytes (just above `MaxBodyLen`); its wire form
(`Response.Bytes`) is the 24-byte header `81 00 0000 00 00 0000
014FB181 00000000 0000000000000000` followed by the body. -/
def c2Resp : Response :=
  { opcode := 0, status := 0, opaq := 0, cas := 0, extras := [], key := [],
    body := List.replicate 22000001 0 }

def c3Req : Request :=
  { opcode := GET, cas := 0, opaq := 0, extras := [], key := [],
    body := [1] }

/-- a concrete SET request with a non-zero cas, used as the round-trip
witness input. -/
def c3Wit : Request :=
  { opcode := SET, cas := 938424885, opaq := 7242, extras := [1, 2, 3, 4],
    key := [107, 101, 121], body := [9, 8] }

/-- a pool state is well formed when a closed pool has already been
drained (the only way a pool gets closed is `Destroy`, which drains the
idle buffer before returning). -/
def WFPool (p : Pool α) : Prop := p.storeClosed = true → p.store = []

/-- a Go error chain that nowhere wraps a `*Response`. -/
def respFree : GoErr → Bool
  | .base _ => true
  | .respErr _ => false
  | .wrap1 e => respFree e
  | .wrap2 e1 e2 => respFree e1 && respFree e2

/-- C8: `prepareExtras` produces extras of length 0, 4, 8 or 20 as a
function of the opcode: the store family gets `flags(4)=0 | expiration(4)`
(8 bytes, expiration 256 giving `00 00 00 00 00 00 01 00`), the delta
family `delta(8) | initial(8) | expiration(4)` (20 bytes, with the
claimed bytes for delta 1, initial 42, expiration 256), the flush family
`expiration(4)` (4 bytes), and the get/delete/append/prepend/noop/quit/
version/stat/SASL opcodes no extras regardless of the arguments. -/
theorem prepareExtras_spec :
    (∀ op exp d iv : Nat,
       ((bareReq op).prepareExtras exp d iv).extras.length = 0 ∨
       ((bareReq op).prepareExtras exp d iv).extras.length = 4 ∨
       ((bareReq op).prepareExtras exp d iv).extras.length = 8 ∨
       ((bareReq op).prepareExtras exp d iv).extras.length = 20) ∧
    (∀ op ∈ [SET, SETQ, ADD, ADDQ, REPLACE, REPLACEQ], ∀ exp d iv : Nat,
       ((bareReq op).prepareExtras exp d iv).extras = be4 0 ++ be4 exp) ∧
    (∀ op ∈ [INCREMENT, INCREMENTQ, DECREMENT, DECREMENTQ],
       ∀ exp d iv : Nat,
       ((bareReq op).prepareExtras exp d iv).extras =
         be8 d ++ be8 iv ++ be4 exp) ∧
    (∀ op ∈ [FLUSH, FLUSHQ], ∀ exp d iv : Nat,
       ((bareReq op).prepareExtras exp d iv).extras = be4 exp) ∧
    (∀ op ∈ [GET, GETQ, GETK, GETKQ, DELETE, DELETEQ, APPEND, APPENDQ,
             PREPEND, PREPENDQ, NOOP, QUIT, QUITQ, VERSION, STAT,
             SASL_LIST_MECHS, SASL_AUTH, SASL_STEP], ∀ exp d iv : Nat,
       ((bareReq op).prepareExtras exp d iv).extras = []) ∧
    ((bareReq SET).prepareExtras 256 1 1).extras =
      [0, 0, 0, 0, 0, 0, 1, 0] ∧
    ((bareReq INCREMENT).prepareExtras 256 1 42).extras =
      [0, 0, 0, 0, 0, 0, 0, 1, 0, 0, 0, 0, 0, 0, 0, 0x2a, 0, 0, 1, 0] ∧
    ((bareReq FLUSH).prepareExtras 256 0 0).extras = [0, 0, 1, 0] := by
  refine ⟨?_, ?_, ?_, ?_, ?_, by decide, by decide, by decide⟩
  · intro op exp d iv
    unfold Request.prepareExtras bareReq
    split_ifs <;> simp [be4, be8]
  · intro op hop exp d iv
    fin_cases hop <;>
      simp [Request.prepareExtras, bareReq, SET, SETQ, ADD, ADDQ, REPLACE,
        REPLACEQ, DELETE, DELETEQ, QUIT, QUITQ, NOOP, VERSION, APPEND,
        APPENDQ, PREPEND, PREPENDQ, STAT, GET, GETQ, GETK, GETKQ]
  · intro op hop exp d iv
    fin_cases hop <;>
      simp [Request.prepareExtras, bareReq, INCREMENT, INCREMENTQ,
        DECREMENT, DECREMENTQ, SET, SETQ, ADD, ADDQ, REPLACE, REPLACEQ,
        DELETE, DELETEQ, QUIT, QUITQ, NOOP, VERSION, APPEND, APPENDQ,
        PREPEND, PREPENDQ, STAT, GET, GETQ, GETK, GETKQ]
  · intro op hop exp d iv
    fin_cases hop <;>
      simp [Request.prepareExtras, bareReq, FLUSH, FLUSHQ, INCREMENT,
        INCREMENTQ, DECREMENT, DECREMENTQ, SET, SETQ, ADD, ADDQ, REPLACE,
        REPLACEQ, DELETE, DELETEQ, QUIT, QUITQ, NOOP, VERSION, APPEND,
        APPENDQ, PREPEND, PREPENDQ, STAT, GET, GETQ, GETK, GETKQ]
  · intro op hop exp d iv
    fin_cases hop <;>
      simp [Request.prepareExtras, bareReq, FLUSH, FLUSHQ, INCREMENT,
        INCREMENTQ, DECREMENT, DECREMENTQ, SET, SETQ, ADD, ADDQ, REPLACE,
        REPLACEQ, DELETE, DELETEQ, QUIT, QUITQ, NOOP, VERSION, APPEND,
        APPENDQ, PREPEND, PREPENDQ, STAT, GET, GETQ, GETK, GETKQ,
        SASL_LIST_MECHS, SASL_AUTH, SASL_STEP]

/-- C8 witness: the store-family conjunct applied at `SET` with
expiration 256. -/
theorem prepareExtras_spec_witness :
    ((bareReq SET).prepareExtras 256 1 1).extras = be4 0 ++ be4 256 :=
  prepareExtras_spec.2.1 SET (by decide) 256 1 1

lemma getNodesForKeysAux_err (route : List Nat → Option String)
    (keys : List (List Nat)) :
    ∀ acc, (∃ k ∈ keys, legalKey k = false) →
      getNodesForKeysAux route acc keys = .error (.wrap1 ErrMalformedKey) := by
  induction keys with
  | nil => rintro acc ⟨k, hk, _⟩; cases hk
  | cons k rest ih =>
    rintro acc ⟨k', hk', hbad⟩
    by_cases hk : legalKey k = true
    · have hmem : k' ∈ rest := by
        rcases List.mem_cons.1 hk' with rfl | hmem
        · rw [hk] at hbad; cases hbad
        · exact hmem
      simp only [getNodesForKeysAux, hk, not_true_eq_false, ite_false]
      cases route k with
      | some node => exact ih _ ⟨k', hmem, hbad⟩
      | none => exact ih _ ⟨k', hmem, hbad⟩
    · have hkf : legalKey k = false := by simpa using hk
      simp [getNodesForKeysAux, hkf]

/-- C9: `legalKey` rejects exactly the keys longer than 250 bytes or
containing a byte `≤ 0x20` or `= 0x7F`; the four literal examples
behave as claimed (`"foo bar"`, `"foo"+0x7F`, a 251-byte key rejected;
the UTF-8 bytes of `"Hello_世界"` accepted); and each public operation —
the five single-key flows and the multi-key partitioner — fails with
the malformed-key error before any routing or I/O when a key is
illegal. -/
theorem legalKey_spec :
    (∀ key : List Nat, legalKey key = true ↔
       (key.length ≤ 250 ∧ ∀ b ∈ key, ¬(b ≤ 0x20 ∨ b = 0x7f))) ∧
    legalKey [0x66, 0x6f, 0x6f, 0x20, 0x62, 0x61, 0x72] = false ∧
    legalKey [0x66, 0x6f, 0x6f, 0x7f] = false ∧
    legalKey (List.replicate 251 0x61) = false ∧
    legalKey [72, 101, 108, 108, 111, 95, 228, 184, 150, 231, 149, 140] =
      true ∧
    (∀ route key cont, legalKey key = false →
       StoreFlow route key cont = .error ErrMalformedKey) ∧
    (∀ route key cont, legalKey key = false →
       GetFlow route key cont = .error ErrMalformedKey) ∧
    (∀ route key cont, legalKey key = false →
       DeleteFlow route key cont = .error ErrMalformedKey) ∧
    (∀ route key cont, legalKey key = false →
       DeltaFlow route key cont = .error ErrMalformedKey) ∧
    (∀ route key cont, legalKey key = false →
       AppendFlow route key cont = .error ErrMalformedKey) ∧
    (∀ route keys, (∃ k ∈ keys, legalKey k = false) →
       getNodesForKeys route keys = .error (.wrap1 ErrMalformedKey)) := by
  refine ⟨?_, by decide, by decide, by decide, by decide,
    ?_, ?_, ?_, ?_, ?_, ?_⟩
  · intro key
    unfold legalKey
    by_cases h : key.length > 250
    · simp [h]
    · simp only [h, ite_false, List.all_eq_true]
      constructor
      · intro hall
        refine ⟨by omega, fun b hb => ?_⟩
        have := hall b hb
        simp only [Bool.not_eq_true', Bool.or_eq_false_iff,
          decide_eq_false_iff_not] at this
        tauto
      · rintro ⟨-, hall⟩ b hb
        have := hall b hb
        simp only [Bool.not_eq_true', Bool.or_eq_false_iff,
          decide_eq_false_iff_not]
        tauto
  · intro route key cont h; simp [StoreFlow, h]
  · intro route key cont h; simp [GetFlow, h]
  · intro route key cont h; simp [DeleteFlow, h]
  · intro route key cont h; simp [DeltaFlow, h]
  · intro route key cont h; simp [AppendFlow, h]
  · intro route keys hex
    exact getNodesForKeysAux_err route keys []
      ⟨hex.choose, hex.choose_spec.1, hex.choose_spec.2⟩

/-- C1 counterexample: a single-key operation answered with status
INVALID_ARGS (0x04) destroys the connection (`condReleases = false`)
although the spec's table marks that status resumable; likewise
TEMPORARY_FAIL (0x86) and VALUE_TOO_LARGE (0x03) are destroyed. -/
theorem condReleases_cex :
    condReleases (respWith EINVAL) = false ∧
    specResumableStatus EINVAL = true ∧
    condReleases (respWith TMPFAIL) = false ∧
    specResumableStatus TMPFAIL = true ∧
    condReleases (respWith E2BIG) = false ∧
    specResumableStatus E2BIG = true := by decide

/-- C1 amended: after a single-key operation whose response carries a
non-success status, the connection is returned to the pool exactly for
the statuses KEY_NOT_FOUND (0x01), KEY_EXISTS (0x02) and NOT_STORED
(0x05) — the only statuses that are both `resumableError`-resumable and
`isFatal`-nonfatal — and destroyed for every other non-success status,
including INVALID_ARGS, DELTA_BAD_VALUE, VALUE_TOO_LARGE,
TEMPORARY_FAIL, AUTH_FAIL, UNKNOWN_COMMAND and OUT_OF_MEMORY. -/
theorem condReleases_spec (r : Response) (h : r.status ≠ SUCCESS) :
    condReleases r = true ↔
      (r.status = KEY_ENOENT ∨ r.status = KEY_EEXISTS ∨
       r.status = NOT_STORED) := by
  unfold condReleases getResponseErr wrapMemcachedResp
  split_ifs with h0 h1 h2 h3 h4 h5 h6 h7
  · exact absurd h0 h
  · simp [h1, resumableError, GoErr.goIs, isFatal, errStatus,
      GoErr.goAsResp, ErrCacheMiss, ErrCASConflict, ErrNotStored,
      ErrMalformedKey, KEY_ENOENT, KEY_EEXISTS, NOT_STORED, TMPFAIL,
      AUTHFAIL]
  · rcases h2 with h2 | h2 <;>
      simp [h2, resumableError, GoErr.goIs, isFatal, errStatus,
        GoErr.goAsResp, ErrCacheMiss, ErrCASConflict, ErrNotStored,
        ErrMalformedKey, KEY_ENOENT, KEY_EEXISTS, NOT_STORED, TMPFAIL,
        AUTHFAIL]
  · rcases h3 with h3 | h3 <;>
      simp [h3, resumableError, GoErr.goIs, isFatal, errStatus,
        GoErr.goAsResp, ErrCacheMiss, ErrCASConflict, ErrNotStored,
        ErrMalformedKey, ErrInvalidArguments, KEY_ENOENT, KEY_EEXISTS,
        NOT_STORED, EINVAL, DELTA_BADVAL]
  · simp [h4, resumableError, GoErr.goIs, isFatal, errStatus,
      GoErr.goAsResp, ErrCacheMiss, ErrCASConflict, ErrNotStored,
      ErrMalformedKey, ErrServerError, KEY_ENOENT, KEY_EEXISTS,
      NOT_STORED, ENOMEM]
  · simp [h5, resumableError, GoErr.goIs, isFatal, errStatus,
      GoErr.goAsResp, ErrCacheMiss, ErrCASConflict, ErrNotStored,
      ErrMalformedKey, ErrServerNotAvailable, KEY_ENOENT, KEY_EEXISTS,
      NOT_STORED, TMPFAIL]
  · simp [h6, resumableError, GoErr.goIs, isFatal, errStatus,
      GoErr.goAsResp, ErrCacheMiss, ErrCASConflict, ErrNotStored,
      ErrMalformedKey, ErrUnknownCommand, KEY_ENOENT, KEY_EEXISTS,
      NOT_STORED, UNKNOWN_COMMAND]
  · simp [h7, resumableError, GoErr.goIs, isFatal, errStatus,
      GoErr.goAsResp, ErrCacheMiss, ErrCASConflict, ErrNotStored,
      ErrMalformedKey, ErrDataSizeExceedsLimit, KEY_ENOENT, KEY_EEXISTS,
      NOT_STORED, E2BIG]
  · simp only [resumableError, GoErr.goIs, isFatal, errStatus,
      GoErr.goAsResp, ErrCacheMiss, ErrCASConflict, ErrNotStored,
      ErrMalformedKey, ErrServerError]
    simp only [KEY_ENOENT, KEY_EEXISTS, NOT_STORED, TMPFAIL, AUTHFAIL,
      SUCCESS, EINVAL, DELTA_BADVAL, ENOMEM, UNKNOWN_COMMAND, E2BIG] at *
    simp
    tauto

/-- C1 amended witness: the theorem applied to a concrete NOT_STORED
response (released) — its hypothesis `status ≠ SUCCESS` discharged
concretely. -/
theorem condReleases_spec_witness :
    condReleases (respWith NOT_STORED) = true ↔
      ((respWith NOT_STORED).status = KEY_ENOENT ∨
       (respWith NOT_STORED).status = KEY_EEXISTS ∨
       (respWith NOT_STORED).status = NOT_STORED) :=
  condReleases_spec _ (by decide)

lemma be2_decode {n : Nat} (h : n < 2 ^ 16) :
    n / 2 ^ 8 % 256 * 2 ^ 8 + n % 256 = n := by omega

lemma be4_decode {n : Nat} (h : n < 2 ^ 32) :
    n / 2 ^ 24 % 256 * 2 ^ 24 + n / 2 ^ 16 % 256 * 2 ^ 16 +
      n / 2 ^ 8 % 256 * 2 ^ 8 + n % 256 = n := by omega

lemma be8_decode {n : Nat} (h : n < 2 ^ 64) :
    n / 2 ^ 56 % 256 * 2 ^ 56 + n / 2 ^ 48 % 256 * 2 ^ 48 +
      n / 2 ^ 40 % 256 * 2 ^ 40 + n / 2 ^ 32 % 256 * 2 ^ 32 +
      n / 2 ^ 24 % 256 * 2 ^ 24 + n / 2 ^ 16 % 256 * 2 ^ 16 +
      n / 2 ^ 8 % 256 * 2 ^ 8 + n % 256 = n := by omega

/-- decoding an encoded response reconstructs it: the core codec
round-trip fact for responses, for any field values within the wire
widths. -/
lemma responseReceive_bytes (r : Response)
    (hop : r.opcode < 256) (hst : r.status < 2 ^ 16) (hopq : r.opaq < 2 ^ 32)
    (hcas : r.cas < 2 ^ 64) (he : r.extras.length < 256)
    (hk : r.key.length < 2 ^ 16)
    (ht : r.body.length + r.key.length + r.extras.length < 2 ^ 32) :
    Response.Receive r.Bytes = .ok (r, r.Size) := by
  obtain ⟨op, st, opq, cas, extras, key, body⟩ := r
  simp only at hop hst hopq hcas he hk ht
  have hrep : List.replicate 8 (0 : Nat) = [0, 0, 0, 0, 0, 0, 0, 0] := rfl
  have hcasbytes : (if cas ≠ 0 then be8 cas else List.replicate 8 0) =
      [cas / 2 ^ 56 % 256, cas / 2 ^ 48 % 256, cas / 2 ^ 40 % 256,
       cas / 2 ^ 32 % 256, cas / 2 ^ 24 % 256, cas / 2 ^ 16 % 256,
       cas / 2 ^ 8 % 256, cas % 256] := by
    rcases eq_or_ne cas 0 with hc | hc
    · subst hc; simp [be8]
    · simp [hc, be8]
  show Response.Receive
      ([RES_MAGIC, op % 256] ++ be2 key.length ++ [extras.length % 256, 0] ++
       be2 st ++ be4 (body.length + key.length + extras.length) ++ be4 opq ++
       (if cas ≠ 0 then be8 cas else List.replicate 8 0) ++
       extras ++ key ++ body) = _
  rw [hcasbytes]
  simp only [be2, be4, List.cons_append, List.nil_append]
  rw [Response.Receive]
  have hmod_op : op % 256 = op := Nat.mod_eq_of_lt hop
  have hmod_e : extras.length % 256 = extras.length := Nat.mod_eq_of_lt he
  have hlen : (extras ++ key ++ body).length =
      body.length + key.length + extras.length := by
    simp [List.length_append]; omega
  have hext : (if extras.length > 0 then
      goSlice (extras ++ key ++ body) 0 extras.length else some []) =
      some extras := by
    rcases Nat.eq_zero_or_pos extras.length with h0 | h0
    · simp [List.length_eq_zero.1 h0]
    · rw [if_pos h0]
      unfold goSlice
      rw [if_pos (by constructor <;> omega)]
      rw [List.append_assoc, List.take_left, List.drop_zero]
  have hkey : (if key.length > 0 then
      goSlice (extras ++ key ++ body) extras.length
        (key.length + extras.length) else some []) = some key := by
    rcases Nat.eq_zero_or_pos key.length with h0 | h0
    · simp [List.length_eq_zero.1 h0]
    · rw [if_pos h0]
      unfold goSlice
      rw [if_pos (by constructor <;> omega)]
      rw [List.take_left' (by simp; omega), List.drop_left]
  have hread : readFull (extras ++ key ++ body)
      (body.length + key.length + extras.length) =
      some (extras ++ key ++ body) := by
    unfold readFull
    rw [hlen, if_pos (le_refl _), ← hlen, List.take_length]
  simp only [be2_decode hk, be2_decode hst, be4_decode ht, be4_decode hopq,
    be8_decode hcas, hmod_e, hmod_op, hread]
  rw [if_neg (by simp [RES_MAGIC, REQ_MAGIC])]
  rw [hext, hkey]
  rcases Nat.eq_zero_or_pos body.length with hb | hb
  · have hneg : ¬((((body.length + key.length + extras.length : Nat)) : Int) -
        ((key.length : Int) + (extras.length : Int)) > 0) := by
      push_cast; omega
    rw [if_neg hneg]
    have hbe : body = [] := List.length_eq_zero.1 hb
    subst hbe
    simp [Response.Size]
    omega
  · have hpos : ((((body.length + key.length + extras.length : Nat)) : Int) -
        ((key.length : Int) + (extras.length : Int)) > 0) := by
      push_cast; omega
    rw [if_pos hpos]
    unfold goSlice
    rw [if_pos (by constructor <;> omega)]
    rw [List.take_length, List.drop_left' (by simp; omega)]
    simp [Response.Size]
    omega

/-- decoding an encoded request reconstructs it, provided the body fits
under `MaxBodyLen` and — because `Request.Receive` populates the body
only when `klen + elen > 0` — the key and extras are not both empty
unless the body is empty too. -/
lemma requestReceive_bytes (r : Request)
    (hop : r.opcode < 256) (hopq : r.opaq < 2 ^ 32) (hcas : r.cas < 2 ^ 64)
    (he : r.extras.length < 256) (hk : r.key.length < 2 ^ 16)
    (hb : r.body.length ≤ MaxBodyLen)
    (hguard : r.key.length + r.extras.length > 0 ∨ r.body = []) :
    Request.Receive r.Bytes = .ok (r, r.Size) := by
  obtain ⟨op, cas, opq, extras, key, body⟩ := r
  simp only at hop hopq hcas he hk hb hguard
  have hb' : body.length ≤ 22000000 := hb
  have ht : body.length + key.length + extras.length < 2 ^ 32 := by omega
  have hcasbytes : (if cas ≠ 0 then be8 cas else List.replicate 8 0) =
      [cas / 2 ^ 56 % 256, cas / 2 ^ 48 % 256, cas / 2 ^ 40 % 256,
       cas / 2 ^ 32 % 256, cas / 2 ^ 24 % 256, cas / 2 ^ 16 % 256,
       cas / 2 ^ 8 % 256, cas % 256] := by
    rcases eq_or_ne cas 0 with hc | hc
    · subst hc; simp [be8]
    · simp [hc, be8]
  have hmod_op : op % 256 = op := Nat.mod_eq_of_lt hop
  have hmod_e : extras.length % 256 = extras.length := Nat.mod_eq_of_lt he
  have hlen : (extras ++ key ++ body).length =
      body.length + key.length + extras.length := by
    simp [List.length_append]; omega
  show Request.Receive
      ([REQ_MAGIC, op % 256] ++ be2 key.length ++
       [extras.length % 256, 0, 0, 0] ++
       be4 (body.length + key.length + extras.length) ++ be4 opq ++
       (if cas ≠ 0 then be8 cas else List.replicate 8 0) ++
       extras ++ key ++ body) = _
  rw [hcasbytes]
  simp only [be2, be4, List.cons_append, List.nil_append]
  rw [Request.Receive]
  have hwrap : (body.length + key.length + extras.length +
      (2 ^ 32 - (key.length + extras.length))) % 2 ^ 32 = body.length := by
    omega
  have hext : (if extras.length > 0 then
      (extras ++ key ++ body).take extras.length else ([] : List Nat)) =
      extras := by
    rcases Nat.eq_zero_or_pos extras.length with h0 | h0
    · simp [List.length_eq_zero.1 h0]
    · rw [if_pos h0, List.append_assoc, List.take_left]
  have hkey : (if key.length > 0 then
      ((extras ++ key ++ body).drop extras.length).take key.length
      else ([] : List Nat)) = key := by
    rcases Nat.eq_zero_or_pos key.length with h0 | h0
    · simp [List.length_eq_zero.1 h0]
    · rw [if_pos h0, List.append_assoc, List.drop_left, List.take_left]
  have hread : readFull (extras ++ key ++ body)
      (key.length + extras.length + body.length) =
      some (extras ++ key ++ body) := by
    unfold readFull
    rw [if_pos (by omega)]
    rw [show key.length + extras.length + body.length =
      (extras ++ key ++ body).length from by rw [hlen]; omega]
    rw [List.take_length]
  simp only [be2_decode hk, be4_decode ht, be4_decode hopq,
    be8_decode hcas, hmod_e, hmod_op, hwrap]
  rw [if_neg (by simp [RES_MAGIC, REQ_MAGIC])]
  rw [if_neg (by simp [MaxBodyLen]; omega)]
  rw [hread]
  simp only [hext, hkey]
  rcases hguard with hg | hg
  · rw [if_pos hg, List.drop_left' (by simp; omega)]
    simp [Request.Size]
    omega
  · subst hg
    rcases Nat.eq_zero_or_pos (key.length + extras.length) with h0 | h0
    · rw [if_neg (by omega)]
      simp [Request.Size]
      omega
    · rw [if_pos h0, List.drop_left' (by simp; omega)]
      simp [Request.Size]
      omega

/-- C2 counterexample: `Response.Receive` happily decodes a frame whose
total body length is 22,000,001 bytes — above the 22 MB limit — and
returns the decoded response; it performs no size or negative-length
check at all. -/
theorem responseReceive_bigBody_cex :
    Response.Receive (Response.Bytes c2Resp) = .ok (c2Resp, c2Resp.Size) ∧
    c2Resp.body.length > MaxBodyLen := by
  have hbody : c2Resp.body = List.replicate 22000001 0 := rfl
  constructor
  · apply responseReceive_bytes c2Resp (by decide) (by decide) (by decide)
      (by decide) (by decide) (by decide)
    rw [hbody, List.length_replicate]
    decide
  · rw [hbody, List.length_replicate]
    decide

/-- C2 amended: after the 24-byte header, *both* decoders reject a
frame whose magic is neither 0x80 nor 0x81; the `body_only < 0` and
22 MB checks live in `Request.Receive` only, where the 32-bit
wraparound length is rejected above `MaxBodyLen` — which covers both a
genuinely oversized body and every negative `body_only` (the wraparound
exceeds the limit) — while `Response.Receive` performs no size check at
all (it can only fail with a short read, a bad magic, or a slice
panic). -/
theorem receive_checks_spec :
    (∀ b0 b1 b2 b3 b4 b5 b6 b7 b8 b9 b10 b11 b12 b13 b14 b15 b16 b17 b18
       b19 b20 b21 b22 b23 : Nat, ∀ rest : List Nat,
       b0 ≠ 0x80 → b0 ≠ 0x81 →
       Request.Receive (b0 :: b1 :: b2 :: b3 :: b4 :: b5 :: b6 :: b7 ::
         b8 :: b9 :: b10 :: b11 :: b12 :: b13 :: b14 :: b15 :: b16 ::
         b17 :: b18 :: b19 :: b20 :: b21 :: b22 :: b23 :: rest) =
         .error (.badMagic b0) ∧
       Response.Receive (b0 :: b1 :: b2 :: b3 :: b4 :: b5 :: b6 :: b7 ::
         b8 :: b9 :: b10 :: b11 :: b12 :: b13 :: b14 :: b15 :: b16 ::
         b17 :: b18 :: b19 :: b20 :: b21 :: b22 :: b23 :: rest) =
         .error (.badMagic b0)) ∧
    (∀ b1 b2 b3 b4 b5 b6 b7 b8 b9 b10 b11 b12 b13 b14 b15 b16 b17 b18
       b19 b20 b21 b22 b23 : Nat, ∀ rest : List Nat,
       b2 < 256 → b3 < 256 → b4 < 256 →
       b8 < 256 → b9 < 256 → b10 < 256 → b11 < 256 →
       (b8 * 2 ^ 24 + b9 * 2 ^ 16 + b10 * 2 ^ 8 + b11 <
          (b2 * 2 ^ 8 + b3) + b4 ∨
        b8 * 2 ^ 24 + b9 * 2 ^ 16 + b10 * 2 ^ 8 + b11 -
          ((b2 * 2 ^ 8 + b3) + b4) > MaxBodyLen) →
       Request.Receive (0x80 :: b1 :: b2 :: b3 :: b4 :: b5 :: b6 :: b7 ::
         b8 :: b9 :: b10 :: b11 :: b12 :: b13 :: b14 :: b15 :: b16 ::
         b17 :: b18 :: b19 :: b20 :: b21 :: b22 :: b23 :: rest) =
         .error (.tooBig ((b8 * 2 ^ 24 + b9 * 2 ^ 16 + b10 * 2 ^ 8 + b11 +
           (2 ^ 32 - (b2 * 2 ^ 8 + b3 + b4))) % 2 ^ 32))) ∧
    (∀ (s : List Nat) (n : Nat),
       Response.Receive s ≠ .error (.tooBig n)) := by
  refine ⟨?_, ?_, ?_⟩
  · intro b0 b1 b2 b3 b4 b5 b6 b7 b8 b9 b10 b11 b12 b13 b14 b15 b16 b17
      b18 b19 b20 b21 b22 b23 rest h80 h81
    constructor
    · rw [Request.Receive]
      rw [if_pos ⟨by simpa [RES_MAGIC] using h81,
        by simpa [REQ_MAGIC] using h80⟩]
    · rw [Response.Receive]
      rw [if_pos ⟨by simpa [RES_MAGIC] using h81,
        by simpa [REQ_MAGIC] using h80⟩]
  · intro b1 b2 b3 b4 b5 b6 b7 b8 b9 b10 b11 b12 b13 b14 b15 b16 b17
      b18 b19 b20 b21 b22 b23 rest hb2 hb3 hb4 hb8 hb9 hb10 hb11 hcase
    rw [Request.Receive]
    rw [if_neg (by simp [RES_MAGIC, REQ_MAGIC])]
    rw [if_pos (by
      simp only [MaxBodyLen] at hcase ⊢
      omega)]
  · intro s n heq
    unfold Response.Receive at heq
    split at heq
    · split_ifs at heq
      · simp at heq
      · dsimp only at heq
        split at heq
        · simp at heq
        · split at heq
          · simp at heq
          · simp at heq
    · simp at heq

/-- C2 amended witness: the size-check conjunct applied to a concrete
header with `total_body_len = 0` but `key_len = 1` — a negative
`body_only`, rejected through the 32-bit wraparound. -/
theorem receive_checks_spec_witness :
    Request.Receive (0x80 :: 0 :: 0 :: 1 :: 0 :: 0 :: 0 :: 0 ::
      0 :: 0 :: 0 :: 0 :: 0 :: 0 :: 0 :: 0 :: 0 ::
      0 :: 0 :: 0 :: 0 :: 0 :: 0 :: 0 :: ([] : List Nat)) =
      .error (.tooBig ((0 * 2 ^ 24 + 0 * 2 ^ 16 + 0 * 2 ^ 8 + 0 +
        (2 ^ 32 - (0 * 2 ^ 8 + 1 + 0))) % 2 ^ 32)) :=
  receive_checks_spec.2.1 0 0 1 0 0 0 0 0 0 0 0 0 0 0 0 0 0 0 0 0 0 0 0 []
    (by decide) (by decide) (by decide) (by decide) (by decide)
    (by decide) (by decide) (Or.inl (by decide))

/-- C3 counterexample: a request with empty key and extras but a
non-empty body does not survive the round trip — `Request.Receive`
populates the body only when `klen + elen > 0`, so decoding the encoded
form drops the body. -/
theorem requestRoundTrip_cex :
    Request.Receive (Request.Bytes c3Req) =
      .ok ({ opcode := GET, cas := 0, opaq := 0, extras := [], key := [],
             body := [] }, 25) ∧
    ({ opcode := GET, cas := 0, opaq := 0, extras := [], key := [],
       body := [] } : Request) ≠ c3Req := by decide

/-- C3 amended: decoding the encoded wire form reconstructs the message
field by field for every Response, and for every Request whose key and
extras are not both empty or whose body is empty (the one exception the
`klen + elen > 0` guard in `Request.Receive` forces); field values must
fit their wire widths and a request body must be within `MaxBodyLen`.
Encoding with `cas = 0` leaves the eight CAS header bytes zero, and a
non-zero cas is recovered exactly (part of the round trip). -/
theorem codec_roundTrip_spec :
    (∀ r : Request, r.opcode < 256 → r.opaq < 2 ^ 32 → r.cas < 2 ^ 64 →
       r.extras.length < 256 → r.key.length < 2 ^ 16 →
       r.body.length ≤ MaxBodyLen →
       (r.key.length + r.extras.length > 0 ∨ r.body = []) →
       Request.Receive r.Bytes = .ok (r, r.Size)) ∧
    (∀ r : Response, r.opcode < 256 → r.status < 2 ^ 16 →
       r.opaq < 2 ^ 32 → r.cas < 2 ^ 64 → r.extras.length < 256 →
       r.key.length < 2 ^ 16 →
       r.body.length + r.key.length + r.extras.length < 2 ^ 32 →
       Response.Receive r.Bytes = .ok (r, r.Size)) ∧
    (∀ r : Request, r.cas = 0 →
       (r.Bytes.drop 16).take 8 = List.replicate 8 0) := by
  refine ⟨requestReceive_bytes, responseReceive_bytes, ?_⟩
  intro r hc
  have hsplit : r.Bytes =
      ([REQ_MAGIC, r.opcode % 256] ++ be2 r.key.length ++
       [r.extras.length % 256, 0, 0, 0] ++
       be4 (r.body.length + r.key.length + r.extras.length) ++
       be4 r.opaq) ++
      (List.replicate 8 0 ++ (r.extras ++ r.key ++ r.body)) := by
    simp [Request.Bytes, hc, List.append_assoc]
  rw [hsplit, List.drop_left' (by simp [be2, be4]),
    List.take_left' (by simp)]

/-- C3 witness: the request round-trip conjunct applied to a concrete
SET request with a non-zero cas. -/
theorem codec_roundTrip_spec_witness :
    Request.Receive (Request.Bytes c3Wit) = .ok (c3Wit, c3Wit.Size) :=
  codec_roundTrip_spec.1 _ (by decide) (by decide) (by decide) (by decide)
    (by decide) (by decide) (Or.inl (by decide))

/-- C6: `Destroy` leaves the pool closed and drained; on such a pool
every `Get` deterministically returns `ErrClosedPool` (without a
connection and without panicking) and leaves the state unchanged; every
subsequent pool operation keeps the pool in that state (so *every*
later `Get` fails the same way); and a repeated `Destroy` is a no-op. -/
theorem pool_destroy_spec :
    (∀ {α : Type} (p : Pool α), WFPool p → (p.Destroy).Destroyed) ∧
    (∀ {α : Type} (q : Pool α), q.Destroyed →
       q.Get = (.error ErrClosedPool, q)) ∧
    (∀ {α : Type} (q : Pool α) (op : PoolOp α), q.Destroyed →
       (q.applyOp op).Destroyed) ∧
    (∀ {α : Type} (p : Pool α), p.Destroy.Destroy = p.Destroy) := by
  have hget : ∀ {α : Type} (q : Pool α), q.Destroyed →
      q.Get = (.error ErrClosedPool, q) := by
    intro α q hq
    obtain ⟨hc, hs⟩ := hq
    unfold Pool.Get
    rw [hs, hc]
    simp
  have hdestroyed : ∀ {α : Type} (q : Pool α), q.Destroyed →
      q.Destroy = q := by
    intro α q hq
    unfold Pool.Destroy Pool.isClosed
    rw [hq.1]
    simp
  refine ⟨?_, hget, ?_, ?_⟩
  · intro α p hp
    unfold Pool.Destroy Pool.isClosed
    by_cases hc : p.storeClosed
    · simpa [hc] using ⟨hc, hp hc⟩
    · simp only [hc]
      exact ⟨rfl, rfl⟩
  · intro α q op hq
    cases op with
    | get => rw [Pool.applyOp, hget q hq]; exact hq
    | put v =>
      simp only [Pool.applyOp, Pool.Put, Pool.isClosed, hq.1, ite_true]
      exact hq
    | pop =>
      simp only [Pool.applyOp, Pool.Pop, Pool.isClosed, hq.1, ite_true]
      exact hq
    | closeC => exact ⟨hq.1, hq.2⟩
    | destroy => rw [Pool.applyOp, hdestroyed q hq]; exact hq
  · intro α p
    by_cases hc : p.storeClosed
    · have h1 : p.Destroy = p := by
        unfold Pool.Destroy Pool.isClosed; rw [hc]; simp
      rw [h1, h1]
    · have h1 : (p.Destroy).storeClosed = true ∧ (p.Destroy).store = [] := by
        unfold Pool.Destroy Pool.isClosed
        simp only [hc]
        exact ⟨rfl, rfl⟩
      exact hdestroyed _ ⟨h1.1, h1.2⟩

/-- C6 witness: the first, second and third conjuncts applied to a
concrete live pool and its destroyed state. -/
theorem pool_destroy_spec_witness :
    (((⟨[3], false, 1, 2, some (.ok 7)⟩ : Pool Nat).Destroy).Destroyed) ∧
    ((⟨[], true, 3, 2, some (.ok 7)⟩ : Pool Nat).Get =
      (.error ErrClosedPool, (⟨[], true, 3, 2, some (.ok 7)⟩ : Pool Nat))) :=
  ⟨pool_destroy_spec.1 _ (by intro h; cases h),
   pool_destroy_spec.2.1 _ ⟨rfl, rfl⟩⟩

/-- C7: MultiGet never reports a cache miss as an error.  On the
single-key fast path a KEY_ENOENT answer yields an empty map and a nil
error, and a SUCCESS answer contributes `key ↦ body` with a nil error.
In the batch read loop a KEY_ENOENT answer is skipped (nothing added,
the loop carries on), a SUCCESS answer whose opaque is recorded adds
`key ↦ body`, and a stream of misses terminated by the NOOP sentinel
produces an empty map with the batch ended at the sentinel — the loop
never contributes to MultiGet's returned error (only connection
acquisition can), so the all-misses call returns a nil error. -/
theorem multiGet_spec :
    (∀ (key : List Nat) (r : Response), r.status = KEY_ENOENT →
       multiGetSingle key r = ([], none)) ∧
    (∀ (key : List Nat) (r : Response), r.status = SUCCESS →
       multiGetSingle key r = ([(key, r.body)], none)) ∧
    (∀ idToKey noop (r : Response) rest, r.status = KEY_ENOENT →
       ¬(r.opcode = NOOP ∧ r.opaq = noop) →
       multiGetLoop idToKey noop (r :: rest) =
         multiGetLoop idToKey noop rest) ∧
    (∀ idToKey noop (r : Response) rest key, r.status = SUCCESS →
       lookupAssoc idToKey r.opaq = some key →
       ¬(r.opcode = NOOP ∧ r.opaq = noop) →
       multiGetLoop idToKey noop (r :: rest) =
         ((key, r.body) :: (multiGetLoop idToKey noop rest).1,
          (multiGetLoop idToKey noop rest).2)) ∧
    (∀ idToKey noop (misses : List Response) (noopResp : Response),
       (∀ r ∈ misses, r.status = KEY_ENOENT ∧
          ¬(r.opcode = NOOP ∧ r.opaq = noop)) →
       noopResp.opcode = NOOP → noopResp.opaq = noop →
       noopResp.status = SUCCESS →
       multiGetLoop idToKey noop (misses ++ [noopResp]) =
         ([], .sentinel)) := by
  have hmiss : ∀ idToKey noop (r : Response) rest, r.status = KEY_ENOENT →
      ¬(r.opcode = NOOP ∧ r.opaq = noop) →
      multiGetLoop idToKey noop (r :: rest) =
        multiGetLoop idToKey noop rest := by
    intro idToKey noop r rest h hn
    have herr : getResponseErr r = some (.wrap2 ErrCacheMiss (.respErr r)) := by
      simp [getResponseErr, wrapMemcachedResp, h, KEY_ENOENT, SUCCESS]
    have hfatal : isFatal (some (.wrap2 ErrCacheMiss (.respErr r))) =
        false := by
      simp [isFatal, errStatus, GoErr.goAsResp, ErrCacheMiss, h,
        KEY_ENOENT, KEY_EEXISTS, NOT_STORED, TMPFAIL, AUTHFAIL]
    simp only [multiGetLoop, herr, hfatal, Bool.false_eq_true, if_false,
      hn, ite_false]
    cases lookupAssoc idToKey r.opaq <;> simp
  refine ⟨?_, ?_, hmiss, ?_, ?_⟩
  · intro key r h
    simp [multiGetSingle, h, getResponseErr, wrapMemcachedResp,
      KEY_ENOENT, SUCCESS]
  · intro key r h
    simp [multiGetSingle, h, getResponseErr, wrapMemcachedResp, SUCCESS]
  · intro idToKey noop r rest key h hlook hn
    have herr : getResponseErr r = none := by
      simp [getResponseErr, wrapMemcachedResp, h, SUCCESS]
    have hfatal : isFatal (none : Option GoErr) = false := by
      simp [isFatal]
    simp only [multiGetLoop, herr, hfatal, Bool.false_eq_true, if_false,
      hn, ite_false, hlook]
    simp
  · intro idToKey noop misses noopResp hms hop hopq hst
    induction misses with
    | nil =>
      have herr : getResponseErr noopResp = none := by
        simp [getResponseErr, wrapMemcachedResp, hst, SUCCESS]
      simp [multiGetLoop, herr, isFatal, hop, hopq]
    | cons m ms ih =>
      rw [List.cons_append,
        hmiss idToKey noop m (ms ++ [noopResp]) (hms m (by simp)).1
          (hms m (by simp)).2]
      exact ih (fun r hr => hms r (by simp [hr]))

/-- C7 witness: the all-misses conjunct applied to a concrete two-miss
stream followed by the sentinel NOOP. -/
theorem multiGet_spec_witness :
    multiGetLoop [(1, [97]), (2, [98])] 3
      ([respWith KEY_ENOENT,
        { opcode := GETQ, status := KEY_ENOENT, opaq := 2, cas := 0,
          extras := [], key := [], body := [] }] ++
       [{ opcode := NOOP, status := SUCCESS, opaq := 3, cas := 0,
          extras := [], key := [], body := [] }]) = ([], .sentinel) :=
  multiGet_spec.2.2.2.2 _ _ _ _ (by decide) (by decide) (by decide)
    (by decide)

/-- C10: `wrapMemcachedResp` returns nil exactly on SUCCESS; for every
non-success response it returns a non-nil error from which
`UnwrapMemcachedError` recovers the very same response; and
`UnwrapMemcachedError` is nil on any error that wraps no response. -/
theorem wrapUnwrap_spec :
    (∀ r : Response, wrapMemcachedResp r = none ↔ r.status = SUCCESS) ∧
    (∀ r : Response, r.status ≠ SUCCESS →
       ∃ e, wrapMemcachedResp r = some e ∧
         UnwrapMemcachedError (some e) = some r) ∧
    (∀ e : GoErr, respFree e = true →
       UnwrapMemcachedError (some e) = none) := by
  refine ⟨?_, ?_, ?_⟩
  · intro r
    unfold wrapMemcachedResp
    split_ifs <;> simp_all
  · intro r h
    unfold wrapMemcachedResp
    split_ifs <;>
      first
        | exact absurd (by assumption) h
        | exact ⟨_, rfl, by
            simp [UnwrapMemcachedError, GoErr.goAsResp, ErrCacheMiss,
              ErrNotStored, ErrInvalidArguments, ErrServerError,
              ErrServerNotAvailable, ErrUnknownCommand,
              ErrDataSizeExceedsLimit]⟩
  · intro e he
    induction e with
    | base n => simp [UnwrapMemcachedError, GoErr.goAsResp]
    | respErr r => simp [respFree] at he
    | wrap1 e ih =>
      simp only [respFree] at he
      simpa [UnwrapMemcachedError, GoErr.goAsResp] using ih he
    | wrap2 e1 e2 ih1 ih2 =>
      simp only [respFree, Bool.and_eq_true] at he
      have h1 := ih1 he.1
      have h2 := ih2 he.2
      simp only [UnwrapMemcachedError, GoErr.goAsResp] at h1 h2 ⊢
      simp [h1, h2]

/-- C10 witness: the round-trip conjunct applied to a concrete
KEY_ENOENT response. -/
theorem wrapUnwrap_spec_witness :
    ∃ e, wrapMemcachedResp (respWith KEY_ENOENT) = some e ∧
      UnwrapMemcachedError (some e) = some (respWith KEY_ENOENT) :=
  wrapUnwrap_spec.2.1 _ (by decide)

/-- C9 witness: the Store flow applied to the illegal key `"foo bar"`
(with a routing function and continuation that would otherwise
succeed). -/
theorem legalKey_spec_witness :
    StoreFlow (fun _ => some ("node")) [0x66, 0x6f, 0x6f, 0x20, 0x62, 0x61, 0x72]
      (fun _ => .ok { opcode := SET, status := SUCCESS, opaq := 0, cas := 0,
                      extras := [], key := [], body := [] }) =
      .error ErrMalformedKey :=
  legalKey_spec.2.2.2.2.2.1 _ _ _ (by decide)


/-! ## Ring invariant machinery: proofs -/

/-! helper lemmas -/

lemma foldl_fixed {α β : Type} (f : α → β → α) (l : List β) (st : α)
    (h : ∀ b ∈ l, f st b = st) : l.foldl f st = st := by
  induction l with
  | nil => rfl
  | cons b bs ih =>
    simp only [List.foldl_cons, h b (by simp)]
    exact ih (fun b hb => h b (List.mem_cons_of_mem _ hb))

lemma ringHas_iff (ring : List (Nat × List String)) (h : Nat) :
    ringHas ring h = true ↔ h ∈ ring.map Prod.fst := by
  rw [ringHas]
  constructor
  · intro hs
    rcases hfind : ring.find? (fun e => e.1 = h) with _ | e
    · rw [hfind] at hs; simp at hs
    · have h1 := List.find?_some hfind
      have h2 := List.mem_of_find?_eq_some hfind
      simp at h1
      exact List.mem_map.2 ⟨e, h2, h1⟩
  · intro hm
    obtain ⟨e, he, hfst⟩ := List.mem_map.1 hm
    rcases hfind : ring.find? (fun x => x.1 = h) with _ | e'
    · exfalso
      have := List.find?_eq_none.1 hfind e he
      simp [hfst] at this
    · simp [hfind]

lemma ringHas_false_iff (ring : List (Nat × List String)) (h : Nat) :
    ringHas ring h = false ↔ h ∉ ring.map Prod.fst := by
  rw [← ringHas_iff]
  cases ringHas ring h <;> simp

lemma ringLookup_of_not_mem (ring : List (Nat × List String)) (h : Nat)
    (hm : h ∉ ring.map Prod.fst) : ringLookup ring h = [] := by
  rw [ringLookup]
  rcases hfind : ring.find? (fun x => x.1 = h) with _ | e
  · rw [hfind]
  · exfalso
    have h1 := List.find?_some hfind
    have h2 := List.mem_of_find?_eq_some hfind
    simp at h1
    exact hm (List.mem_map.2 ⟨e, h2, h1⟩)



lemma ringLookup_append_right (ring : List (Nat × List String)) (h : Nat)
    (slot : List String) (hm : h ∉ ring.map Prod.fst) :
    ringLookup (ring ++ [(h, slot)]) h = slot := by
  induction ring with
  | nil => simp [ringLookup]
  | cons e es ih =>
    rw [List.map_cons, List.mem_cons] at hm
    push_neg at hm
    rw [ringLookup, List.cons_append, List.find?_cons]
    have : (decide (e.1 = h)) = false := by simp [Ne.symm hm.1]
    rw [this]
    exact ih hm.2

lemma ringLookup_append_left (ring : List (Nat × List String)) (h h' : Nat)
    (slot : List String) (hne : h' ≠ h) :
    ringLookup (ring ++ [(h, slot)]) h' = ringLookup ring h' := by
  induction ring with
  | nil => simp [ringLookup, Ne.symm hne]
  | cons e es ih =>
    rw [ringLookup, ringLookup, List.cons_append, List.find?_cons,
        List.find?_cons]
    by_cases he : e.1 = h'
    · simp [he]
    · have : (decide (e.1 = h')) = false := by simp [he]
      rw [this]
      exact ih

lemma ringErase_map_fst (ring : List (Nat × List String)) (h : Nat) :
    (ringErase ring h).map Prod.fst =
      (ring.map Prod.fst).filter (fun x => x ≠ h) := by
  rw [ringErase, List.filter_map]
  rfl

lemma ringLookup_erase_ne (ring : List (Nat × List String)) (h h' : Nat)
    (hne : h' ≠ h) :
    ringLookup (ringErase ring h) h' = ringLookup ring h' := by
  induction ring with
  | nil => rfl
  | cons e es ih =>
    rw [ringErase, List.filter_cons]
    by_cases he : e.1 = h
    · have h1 : (decide (e.1 ≠ h)) = false := by simp [he]
      simp only [h1, Bool.false_eq_true, if_false]
      show ringLookup (ringErase es h) h' = ringLookup (e :: es) h'
      rw [ih, ringLookup, ringLookup, List.find?_cons]
      have h2 : (decide (e.1 = h')) = false := by simp [he, Ne.symm hne]
      rw [h2]
    · have h1 : (decide (e.1 ≠ h)) = true := by simp [he]
      simp only [h1, if_true]
      rw [ringLookup, ringLookup, List.find?_cons, List.find?_cons]
      by_cases h3 : e.1 = h'
      · simp [h3]
      · have h4 : (decide (e.1 = h')) = false := by simp [h3]
        rw [h4]
        exact ih

lemma ringSet_map_fst_of_has (ring : List (Nat × List String)) (h : Nat)
    (slot : List String) (hm : ringHas ring h = true) :
    (ringSet ring h slot).map Prod.fst = ring.map Prod.fst := by
  rw [ringSet, if_pos hm, List.map_map]
  apply List.map_congr_left
  intro e _
  by_cases he : e.1 = h <;> simp [he]

lemma ringLookup_set_self (ring : List (Nat × List String)) (h : Nat)
    (slot : List String) (hm : ringHas ring h = true) :
    ringLookup (ringSet ring h slot) h = slot := by
  rw [ringSet, if_pos hm]
  rw [ringHas_iff] at hm
  induction ring with
  | nil => simp at hm
  | cons e es ih =>
    rw [List.map_cons, ringLookup, List.find?_cons]
    by_cases he : e.1 = h
    · simp [he]
    · have h2 : (decide ((if e.1 = h then (h, slot) else e).1 = h)) = false :=
        by simp [he]
      rw [h2]
      rw [List.map_cons, List.mem_cons] at hm
      exact ih (hm.resolve_left (fun hx => he hx.symm))

lemma ringLookup_set_ne (ring : List (Nat × List String)) (h h' : Nat)
    (slot : List String) (hne : h' ≠ h) :
    ringLookup (ringSet ring h slot) h' = ringLookup ring h' := by
  rw [ringSet]
  by_cases hm : ringHas ring h
  · rw [if_pos hm]
    clear hm
    induction ring with
    | nil => rfl
    | cons e es ih =>
      rw [List.map_cons, ringLookup, ringLookup, List.find?_cons,
          List.find?_cons]
      by_cases he : e.1 = h
      · have h2 : (decide ((if e.1 = h then (h, slot) else e).1 = h')) =
            false := by simp [he, Ne.symm hne]
        have h3 : (decide (e.1 = h')) = false := by
          simp [he, Ne.symm hne]
        rw [h2, h3]
        exact ih
      · have h2 : ((if e.1 = h then (h, slot) else e)) = e := by
          rw [if_neg he]
        rw [h2]
        by_cases h3 : e.1 = h'
        · simp [h3]
        · have h4 : (decide (e.1 = h')) = false := by simp [h3]
          rw [h4]
          exact ih
  · rw [if_neg hm]
    exact ringLookup_append_left ring h h' slot hne


lemma mem_dedup_self {α : Type} [DecidableEq α] {a : α} {l : List α}
    (h : a ∈ l) : a ∈ l.dedup := List.mem_dedup.2 h

lemma collisionFree_hashInj (fn : HashFunc) (R : Nat) (N : List String)
    (hcf : CollisionFree fn R N) : HashInj fn R N := by
  rw [CollisionFree, List.nodup_flatMap] at hcf
  obtain ⟨hinner, hpair⟩ := hcf
  intro r hr r' hr' i hi i' hi' heq
  by_cases hrr : r = r'
  · subst hrr
    refine ⟨rfl, ?_⟩
    have hnd := hinner r (mem_dedup_self hr)
    exact List.inj_on_of_nodup_map hnd (List.mem_range.2 hi)
      (List.mem_range.2 hi') heq
  · exfalso
    have hsymm : Symmetric (List.Disjoint on
        (fun r => (List.range R).map (fun i => fn (replicaRepr r i)))) := by
      intro a b hab
      exact List.Disjoint.symm hab
    have hdisj := (hpair.forall hsymm) (mem_dedup_self hr)
      (mem_dedup_self hr') hrr
    have h1 : fn (replicaRepr r i) ∈
        (List.range R).map (fun i => fn (replicaRepr r i)) :=
      List.mem_map.2 ⟨i, List.mem_range.2 hi, rfl⟩
    have h2 : fn (replicaRepr r' i') ∈
        (List.range R).map (fun i => fn (replicaRepr r' i)) :=
      List.mem_map.2 ⟨i', List.mem_range.2 hi', rfl⟩
    rw [← heq] at h2
    exact hdisj h1 h2

lemma hashInj_mono (fn : HashFunc) (R : Nat) (N N' : List String)
    (hsub : ∀ x ∈ N', x ∈ N) (hinj : HashInj fn R N) : HashInj fn R N' :=
  fun r hr r' hr' i hi i' hi' heq =>
    hinj r (hsub r hr) r' (hsub r' hr') i hi i' hi' heq

/-- on a sorted key array, the conditional `eraseIdx` at the
`sort.Search` index is exactly `List.erase`. -/
lemma keysRemove_eq_erase (keys : List Nat) (hash : Nat)
    (hs : keys.Sorted (· ≤ ·)) :
    (if keys.findIdx (fun k => decide (hash ≤ k)) < keys.length ∧
        keys.getD (keys.findIdx (fun k => decide (hash ≤ k))) 0 = hash
     then keys.eraseIdx (keys.findIdx (fun k => decide (hash ≤ k)))
     else keys) = keys.erase hash := by
  induction keys with
  | nil => simp
  | cons k ks ih =>
    rw [List.sorted_cons] at hs
    obtain ⟨hk, hks⟩ := hs
    rw [List.findIdx_cons]
    by_cases hle : hash ≤ k
    · have hcond : (decide (hash ≤ k)) = true := by simp [hle]
      rw [hcond]
      simp only [cond_true]
      by_cases hkh : k = hash
      · subst hkh
        simp [List.erase_cons_head]
      · have : ¬ (0 < (k :: ks).length ∧ (k :: ks).getD 0 0 = hash) := by
          intro hx
          exact hkh hx.2
        rw [if_neg this]
        have hnot : hash ∉ (k :: ks) := by
          intro hmem
          rcases List.mem_cons.1 hmem with h1 | h1
          · exact hkh h1.symm
          · have := hk hash h1
            omega
        rw [List.erase_of_not_mem hnot]
    · have hcond : (decide (hash ≤ k)) = false := by simp [hle]
      rw [hcond]
      simp only [cond_false]
      have hkh : (k == hash) = false := by
        simp
        omega
      rw [List.erase_cons, hkh]
      rw [← ih hks]
      have hiff : (ks.findIdx (fun k => decide (hash ≤ k)) + 1 <
          (k :: ks).length ∧
          (k :: ks).getD (ks.findIdx (fun k => decide (hash ≤ k)) + 1) 0 =
            hash) ↔
          (ks.findIdx (fun k => decide (hash ≤ k)) < ks.length ∧
          ks.getD (ks.findIdx (fun k => decide (hash ≤ k))) 0 = hash) := by
        constructor
        · rintro ⟨h1, h2⟩
          refine ⟨?_, by simpa using h2⟩
          rw [List.length_cons] at h1
          omega
        · rintro ⟨h1, h2⟩
          refine ⟨?_, by simpa using h2⟩
          rw [List.length_cons]
          omega
      by_cases hc : ks.findIdx (fun k => decide (hash ≤ k)) < ks.length ∧
          ks.getD (ks.findIdx (fun k => decide (hash ≤ k))) 0 = hash
      · rw [if_pos (hiff.2 hc), if_pos hc]
        rfl
      · rw [if_neg (fun hx => hc (hiff.1 hx)), if_neg hc]
        simp


lemma mem_insertedHashes (fn : HashFunc) (A : Assignment) (x : Nat) :
    x ∈ insertedHashes fn A ↔
      ∃ p ∈ A, ∃ i ∈ p.2, fn (replicaRepr p.1 i) = x := by
  simp [insertedHashes, nodeHashes, List.mem_flatMap, List.mem_map]

lemma insertedHashes_append (fn : HashFunc) (A B : Assignment) :
    insertedHashes fn (A ++ B) =
      insertedHashes fn A ++ insertedHashes fn B := by
  simp [insertedHashes, List.flatMap_append]

lemma insertedHashes_cons (fn : HashFunc) (p : String × List Nat)
    (A : Assignment) :
    insertedHashes fn (p :: A) = nodeHashes fn p ++ insertedHashes fn A := by
  simp [insertedHashes]

lemma fst_ne_of_split (A1 A2 : Assignment) (r : String) (idxs : List Nat)
    (hnd : ((A1 ++ (r, idxs) :: A2).map Prod.fst).Nodup) :
    (∀ p ∈ A1, p.1 ≠ r) ∧ (∀ p ∈ A2, p.1 ≠ r) := by
  rw [List.map_append, List.map_cons, List.nodup_append] at hnd
  obtain ⟨h1, h2, h3⟩ := hnd
  constructor
  · intro p hp hpr
    exact h3 (List.mem_map.2 ⟨p, hp, hpr⟩) (List.mem_cons_self _ _)
  · intro p hp hpr
    rw [List.nodup_cons] at h2
    exact h2.1 (List.mem_map.2 ⟨p, hp, hpr.symm ▸ rfl⟩)

lemma nodeHashes_nodup (fn : HashFunc) (R : Nat) (N : List String)
    (hinj : HashInj fn R N) (r : String) (hr : r ∈ N) (idxs : List Nat)
    (hnd : idxs.Nodup) (hb : ∀ i ∈ idxs, i < R) :
    (nodeHashes fn (r, idxs)).Nodup := by
  apply hnd.map_on
  intro i hi i' hi' heq
  exact (hinj r hr r hr i (hb i hi) i' (hb i' hi') heq).2

lemma insertedHashes_nodup (fn : HashFunc) (R : Nat) (N : List String)
    (A : Assignment) (hinj : HashInj fn R N)
    (hsub : ∀ p ∈ A, p.1 ∈ N) (hbound : ∀ p ∈ A, ∀ i ∈ p.2, i < R)
    (hidx : ∀ p ∈ A, p.2.Nodup) (hfst : (A.map Prod.fst).Nodup) :
    (insertedHashes fn A).Nodup := by
  rw [insertedHashes, List.nodup_flatMap]
  constructor
  · intro p hp
    exact nodeHashes_nodup fn R N hinj p.1 (hsub p hp) p.2 (hidx p hp)
      (hbound p hp)
  · have hpw : A.Pairwise (fun p q => p.1 ≠ q.1) :=
      (List.pairwise_map.1 hfst)
    apply hpw.imp_of_mem
    intro p q hp hq hne
    intro x hxp hxq
    rw [nodeHashes] at hxp hxq
    obtain ⟨i, hi, hix⟩ := List.mem_map.1 hxp
    obtain ⟨i', hi', hix'⟩ := List.mem_map.1 hxq
    have := hinj p.1 (hsub p hp) q.1 (hsub q hq) i
      (hbound p hp i hi) i' (hbound q hq i' hi') (hix.trans hix'.symm)
    exact hne this.1

lemma nodeHashes_erase (fn : HashFunc) (R : Nat) (N : List String)
    (hinj : HashInj fn R N) (r : String) (hr : r ∈ N) (idxs : List Nat)
    (hnd : idxs.Nodup) (hb : ∀ i ∈ idxs, i < R) (j : Nat) (hj : j < R) :
    nodeHashes fn (r, idxs.erase j) =
      (nodeHashes fn (r, idxs)).erase (fn (replicaRepr r j)) := by
  have hmnd : (nodeHashes fn (r, idxs)).Nodup :=
    nodeHashes_nodup fn R N hinj r hr idxs hnd hb
  rw [hmnd.erase_eq_filter, hnd.erase_eq_filter j]
  rw [nodeHashes, nodeHashes, List.filter_map]
  congr 1
  apply List.filter_congr
  intro i hi
  by_cases hij : i = j
  · subst hij
    show (i != i) = (fn (replicaRepr r i) != fn (replicaRepr r i))
    simp
  · have hfij : fn (replicaRepr r i) ≠ fn (replicaRepr r j) := by
      intro heq
      exact hij (hinj r hr r hr i (hb i hi) j hj heq).2
    have h1 : (i != j) = true := by simpa using hij
    have h2 : (fn (replicaRepr r i) != fn (replicaRepr r j)) = true := by
      simpa using hfij
    show (i != j) = (fn (replicaRepr r i) != fn (replicaRepr r j))
    rw [h1, h2]


lemma removeStep_eq (fn : HashFunc) (r : String) (s : HashRing) (j : Nat)
    (hs : s.keys.Sorted (· ≤ ·)) :
    s.removeStep fn r j =
      HashRing.removeRingNode
        { s with keys := s.keys.erase (fn (replicaRepr r j)) }
        (fn (replicaRepr r j)) r := by
  simp only [HashRing.removeStep]
  rw [keysRemove_eq_erase _ _ hs]

lemma removeRingNode_not_mem (s : HashRing) (hash : Nat) (r : String)
    (hm : hash ∉ s.ring.map Prod.fst) : s.removeRingNode hash r = s := by
  rw [HashRing.removeRingNode, if_neg]
  intro hx
  exact hm ((ringHas_iff s.ring hash).1 hx)

lemma removeRingNode_singleton (s : HashRing) (hash : Nat) (r : String)
    (hhas : ringHas s.ring hash = true) (hm : ringLookup s.ring hash = [r]) :
    s.removeRingNode hash r = { s with ring := ringErase s.ring hash } := by
  rw [HashRing.removeRingNode, if_pos hhas]
  show (if ((ringLookup s.ring hash).filter
      (fun x => decide (Repr x ≠ r))).length > 0 then _ else _) = _
  rw [hm]
  have : (([r] : List String).filter (fun x => decide (Repr x ≠ r))) = [] := by
    simp [Repr]
  rw [this]
  simp

lemma inv_removeStep (fn : HashFunc) (R : Nat) (N : List String)
    (hinj : HashInj fn R N) (r : String) (A1 A2 : Assignment)
    (idxs : List Nat) (j : Nat) (hj : j < R) (s : HashRing)
    (hsub : ∀ p ∈ A1 ++ (r, idxs) :: A2, p.1 ∈ N)
    (hinv : RingInv fn R s (A1 ++ (r, idxs) :: A2)) :
    RingInv fn R (s.removeStep fn r j) (A1 ++ (r, idxs.erase j) :: A2) := by
  have hr : r ∈ N := hsub (r, idxs) (by simp)
  have hfst := fst_ne_of_split A1 A2 r idxs hinv.nodes_nodup
  have hidxnd : idxs.Nodup := hinv.idx_nodup (r, idxs) (by simp)
  have hidxb : ∀ i ∈ idxs, i < R := hinv.idx_bound (r, idxs) (by simp)
  have hIns : insertedHashes fn (A1 ++ (r, idxs) :: A2) =
      insertedHashes fn A1 ++
        (nodeHashes fn (r, idxs) ++ insertedHashes fn A2) := by
    rw [insertedHashes_append, insertedHashes_cons]
  have hIns' : insertedHashes fn (A1 ++ (r, idxs.erase j) :: A2) =
      insertedHashes fn A1 ++
        (nodeHashes fn (r, idxs.erase j) ++ insertedHashes fn A2) := by
    rw [insertedHashes_append, insertedHashes_cons]
  have hmapfst : (A1 ++ (r, idxs.erase j) :: A2).map Prod.fst =
      (A1 ++ (r, idxs) :: A2).map Prod.fst := by simp
  have hnotI1 : fn (replicaRepr r j) ∉ insertedHashes fn A1 := by
    rw [mem_insertedHashes]
    rintro ⟨p, hp, i, hi, heq⟩
    have hb := hinv.idx_bound p (by simp [hp]) i hi
    have := hinj p.1 (hsub p (by simp [hp])) r hr i hb j hj heq
    exact hfst.1 p hp this.1
  have hnotI2 : fn (replicaRepr r j) ∉ insertedHashes fn A2 := by
    rw [mem_insertedHashes]
    rintro ⟨p, hp, i, hi, heq⟩
    have hb := hinv.idx_bound p (by simp [hp]) i hi
    have := hinj p.1 (hsub p (by simp [hp])) r hr i hb j hj heq
    exact hfst.2 p hp this.1
  rw [removeStep_eq fn r s j hinv.keys_sorted]
  by_cases hjm : j ∈ idxs
  · -- the replica hash is present: the key and the singleton slot go away
    have hM : fn (replicaRepr r j) ∈ nodeHashes fn (r, idxs) :=
      List.mem_map.2 ⟨j, hjm, rfl⟩
    have hInsMem : fn (replicaRepr r j) ∈
        insertedHashes fn (A1 ++ (r, idxs) :: A2) := by
      rw [hIns]
      exact List.mem_append_right _ (List.mem_append_left _ hM)
    have hhas : ringHas s.ring (fn (replicaRepr r j)) = true :=
      (ringHas_iff _ _).2 (hinv.ring_keys_perm.mem_iff.2 hInsMem)
    have hlook : ringLookup s.ring (fn (replicaRepr r j)) = [r] :=
      hinv.lookups (r, idxs) (by simp) j hjm
    rw [removeRingNode_singleton
      { s with keys := s.keys.erase (fn (replicaRepr r j)) } _ _ hhas hlook]
    have hringnd : (s.ring.map Prod.fst).Nodup := by
      rw [hinv.ring_keys_perm.nodup_iff]
      exact insertedHashes_nodup fn R N _ hinj hsub hinv.idx_bound
        hinv.idx_nodup hinv.nodes_nodup
    have hErase : (insertedHashes fn (A1 ++ (r, idxs) :: A2)).erase
        (fn (replicaRepr r j)) =
        insertedHashes fn (A1 ++ (r, idxs.erase j) :: A2) := by
      rw [hIns, hIns']
      rw [List.erase_append_right _ hnotI1]
      rw [List.erase_append_left _ hM]
      rw [nodeHashes_erase fn R N hinj r hr idxs hidxnd hidxb j hj]
    have hne_hash : ∀ p ∈ A1 ++ (r, idxs.erase j) :: A2, ∀ i ∈ p.2,
        fn (replicaRepr p.1 i) ≠ fn (replicaRepr r j) := by
      intro p hp i hi heq
      rcases List.mem_append.1 hp with hp1 | hp2
      · have hb := hinv.idx_bound p (by simp [hp1]) i hi
        have := hinj p.1 (hsub p (by simp [hp1])) r hr i hb j hj heq
        exact hfst.1 p hp1 this.1
      · rcases List.mem_cons.1 hp2 with hpm | hp3
        · subst hpm
          have hin : i ∈ idxs := List.mem_of_mem_erase hi
          have hne : i ≠ j := ((hidxnd.mem_erase_iff).1 hi).1
          exact hne (hinj r hr r hr i (hidxb i hin) j hj heq).2
        · have hb := hinv.idx_bound p (by simp [hp3]) i hi
          have := hinj p.1 (hsub p (by simp [hp3])) r hr i hb j hj heq
          exact hfst.2 p hp3 this.1
    refine ⟨?_, ?_, ?_, ?_, ?_, ?_, ?_, ?_, ?_⟩
    · show s.nodes = _
      rw [hmapfst]
      exact hinv.nodes_eq
    · rw [hmapfst]
      exact hinv.nodes_nodup
    · intro p hp i hi
      rcases List.mem_append.1 hp with hp1 | hp2
      · exact hinv.idx_bound p (by simp [hp1]) i hi
      · rcases List.mem_cons.1 hp2 with hpm | hp3
        · subst hpm
          exact hidxb i (List.mem_of_mem_erase hi)
        · exact hinv.idx_bound p (by simp [hp3]) i hi
    · intro p hp
      rcases List.mem_append.1 hp with hp1 | hp2
      · exact hinv.idx_nodup p (by simp [hp1])
      · rcases List.mem_cons.1 hp2 with hpm | hp3
        · subst hpm
          exact (List.erase_sublist _ _).nodup hidxnd
        · exact hinv.idx_nodup p (by simp [hp3])
    · exact hinv.repl_eq
    · show (s.keys.erase (fn (replicaRepr r j))).Sorted (· ≤ ·)
      exact hinv.keys_sorted.sublist (List.erase_sublist _ _)
    · show (s.keys.erase (fn (replicaRepr r j))).Perm _
      rw [← hErase]
      exact hinv.keys_perm.erase _
    · show ((ringErase s.ring (fn (replicaRepr r j))).map Prod.fst).Perm _
      rw [ringErase_map_fst]
      have hfe : (s.ring.map Prod.fst).filter
          (fun x => decide (x ≠ fn (replicaRepr r j))) =
          (s.ring.map Prod.fst).erase (fn (replicaRepr r j)) := by
        rw [hringnd.erase_eq_filter]
        apply List.filter_congr
        intro x _
        by_cases hxy : x = fn (replicaRepr r j)
        · simp [hxy]
        · simp [hxy]
      rw [hfe, ← hErase]
      exact hinv.ring_keys_perm.erase _
    · intro p hp i hi
      show ringLookup (ringErase s.ring (fn (replicaRepr r j)))
        (fn (replicaRepr p.1 i)) = [p.1]
      rw [ringLookup_erase_ne _ _ _ (hne_hash p hp i hi)]
      rcases List.mem_append.1 hp with hp1 | hp2
      · exact hinv.lookups p (by simp [hp1]) i hi
      · rcases List.mem_cons.1 hp2 with hpm | hp3
        · subst hpm
          exact hinv.lookups (r, idxs) (by simp) i (List.mem_of_mem_erase hi)
        · exact hinv.lookups p (by simp [hp3]) i hi
  · -- the replica hash was never inserted: the step is a no-op
    have hnotM : fn (replicaRepr r j) ∉ nodeHashes fn (r, idxs) := by
      intro hm
      obtain ⟨i, hi, heq⟩ := List.mem_map.1 hm
      have := hinj r hr r hr i (hidxb i hi) j hj heq
      exact hjm (this.2 ▸ hi)
    have hnotIns : fn (replicaRepr r j) ∉
        insertedHashes fn (A1 ++ (r, idxs) :: A2) := by
      rw [hIns]
      intro hm
      rcases List.mem_append.1 hm with h1 | h2
      · exact hnotI1 h1
      · rcases List.mem_append.1 h2 with h3 | h4
        · exact hnotM h3
        · exact hnotI2 h4
    have hkeys : s.keys.erase (fn (replicaRepr r j)) = s.keys :=
      List.erase_of_not_mem (fun hm => hnotIns (hinv.keys_perm.mem_iff.1 hm))
    have hring : fn (replicaRepr r j) ∉ s.ring.map Prod.fst :=
      fun hm => hnotIns (hinv.ring_keys_perm.mem_iff.1 hm)
    rw [hkeys]
    have heta : ({ s with keys := s.keys } : HashRing) = s := rfl
    rw [heta, removeRingNode_not_mem s _ r hring]
    have hA : idxs.erase j = idxs := List.erase_of_not_mem hjm
    rw [hA]
    exact hinv


lemma foldl_erase_eq_filter (js : List Nat) : ∀ (idxs : List Nat),
    idxs.Nodup →
    js.foldl (fun l j => l.erase j) idxs =
      idxs.filter (fun i => decide (i ∉ js)) := by
  induction js with
  | nil =>
    intro idxs _
    simp
  | cons j js ih =>
    intro idxs hnd
    simp only [List.foldl_cons]
    rw [ih _ ((List.erase_sublist _ _).nodup hnd)]
    rw [hnd.erase_eq_filter, List.filter_filter]
    apply List.filter_congr
    intro x _
    by_cases h1 : x = j
    · subst h1
      simp
    · by_cases h2 : x ∈ js <;> simp [h1, h2]

lemma inv_removeLoop (fn : HashFunc) (R : Nat) (N : List String)
    (hinj : HashInj fn R N) (r : String) (A1 A2 : Assignment)
    (js : List Nat) : ∀ (s : HashRing) (idxs : List Nat),
    (∀ j ∈ js, j < R) →
    (∀ p ∈ A1 ++ (r, idxs) :: A2, p.1 ∈ N) →
    RingInv fn R s (A1 ++ (r, idxs) :: A2) →
    RingInv fn R (js.foldl (HashRing.removeStep fn r) s)
      (A1 ++ (r, js.foldl (fun l j => l.erase j) idxs) :: A2) := by
  induction js with
  | nil =>
    intro s idxs _ _ hinv
    exact hinv
  | cons j js ih =>
    intro s idxs hjs hsub hinv
    simp only [List.foldl_cons]
    have hsub' : ∀ p ∈ A1 ++ (r, idxs.erase j) :: A2, p.1 ∈ N := by
      intro p hp
      rcases List.mem_append.1 hp with hp1 | hp2
      · exact hsub p (by simp [hp1])
      · rcases List.mem_cons.1 hp2 with hpm | hp3
        · subst hpm
          exact hsub (r, idxs) (by simp)
        · exact hsub p (by simp [hp3])
    exact ih _ _ (fun j' hj' => hjs j' (List.mem_cons_of_mem _ hj')) hsub'
      (inv_removeStep fn R N hinj r A1 A2 idxs j
        (hjs j (List.mem_cons_self _ _)) s hsub hinv)

lemma ringInv_drop_empty (fn : HashFunc) (R : Nat) (s : HashRing)
    (A1 A2 : Assignment) (r : String)
    (hinv : RingInv fn R s (A1 ++ (r, []) :: A2)) :
    RingInv fn R { s with nodes := s.nodes.filter (fun x => decide (x ≠ r)) }
      (A1 ++ A2) := by
  have hfsts := fst_ne_of_split A1 A2 r [] hinv.nodes_nodup
  have hIns : insertedHashes fn (A1 ++ (r, []) :: A2) =
      insertedHashes fn (A1 ++ A2) := by
    rw [insertedHashes_append, insertedHashes_cons, insertedHashes_append]
    rfl
  have hsubl : (A1 ++ A2).Sublist (A1 ++ (r, []) :: A2) :=
    (List.sublist_cons_self _ _).append_left A1
  refine ⟨?_, ?_, ?_, ?_, ?_, ?_, ?_, ?_, ?_⟩
  · show s.nodes.filter (fun x => decide (x ≠ r)) = _
    rw [hinv.nodes_eq, List.map_append, List.map_cons, List.map_append,
        List.filter_append, List.filter_cons]
    have h1 : (A1.map Prod.fst).filter (fun x => decide (x ≠ r)) =
        A1.map Prod.fst := by
      rw [List.filter_eq_self]
      intro a ha
      obtain ⟨p, hp, hpa⟩ := List.mem_map.1 ha
      simpa [← hpa] using hfsts.1 p hp
    have h2 : (A2.map Prod.fst).filter (fun x => decide (x ≠ r)) =
        A2.map Prod.fst := by
      rw [List.filter_eq_self]
      intro a ha
      obtain ⟨p, hp, hpa⟩ := List.mem_map.1 ha
      simpa [← hpa] using hfsts.2 p hp
    have h3 : (decide (((r, ([] : List Nat)).1) ≠ r)) = false := by simp
    rw [h1, h2, h3]
    simp
  · exact ((hsubl.map Prod.fst).nodup) hinv.nodes_nodup
  · intro p hp
    exact hinv.idx_bound p (hsubl.mem hp)
  · intro p hp
    exact hinv.idx_nodup p (hsubl.mem hp)
  · exact hinv.repl_eq
  · exact hinv.keys_sorted
  · rw [← hIns]
    exact hinv.keys_perm
  · rw [← hIns]
    exact hinv.ring_keys_perm
  · intro p hp i hi
    exact hinv.lookups p (hsubl.mem hp) i hi

lemma inv_Remove (fn : HashFunc) (R : Nat) (N : List String)
    (hinj : HashInj fn R N) (node : String) (s : HashRing) (A : Assignment)
    (hsub : ∀ p ∈ A, p.1 ∈ N) (hinv : RingInv fn R s A) :
    RingInv fn R (s.Remove fn node)
      (A.filter (fun p => decide (p.1 ≠ node))) := by
  rw [HashRing.Remove]
  by_cases hmem : Repr node ∈ s.nodes
  · rw [if_neg (not_not_intro hmem)]
    have hnode_fst : node ∈ A.map Prod.fst := by
      have h := hmem
      rw [hinv.nodes_eq] at h
      exact h
    obtain ⟨p, hp, hpfst⟩ := List.mem_map.1 hnode_fst
    obtain ⟨pr, pidx⟩ := p
    simp only at hpfst
    subst hpfst
    obtain ⟨A1, A2, hsplit⟩ := List.append_of_mem hp
    subst hsplit
    have hfsts := fst_ne_of_split A1 A2 pr pidx hinv.nodes_nodup
    have hrep : s.replicas = R := hinv.repl_eq
    rw [hrep]
    have hloop := inv_removeLoop fn R N hinj pr A1 A2 (List.range R) s pidx
      (fun j hj => List.mem_range.1 hj) hsub hinv
    have hidxnd := hinv.idx_nodup (pr, pidx) (by simp)
    have hidxb := hinv.idx_bound (pr, pidx) (by simp)
    have herase : (List.range R).foldl (fun l j => l.erase j) pidx = [] := by
      rw [foldl_erase_eq_filter _ _ hidxnd, List.filter_eq_nil_iff]
      intro i hi
      simp only [decide_eq_true_eq, not_not]
      exact List.mem_range.2 (hidxb i hi)
    rw [herase] at hloop
    have hfilter : (A1 ++ (pr, pidx) :: A2).filter
        (fun p => decide (p.1 ≠ pr)) = A1 ++ A2 := by
      rw [List.filter_append, List.filter_cons]
      have h1 : A1.filter (fun p => decide (p.1 ≠ pr)) = A1 := by
        rw [List.filter_eq_self]
        intro q hq
        simpa using hfsts.1 q hq
      have h2 : A2.filter (fun p => decide (p.1 ≠ pr)) = A2 := by
        rw [List.filter_eq_self]
        intro q hq
        simpa using hfsts.2 q hq
      have h3 : (decide (((pr, pidx).1) ≠ pr)) = false := by simp
      rw [h1, h2, h3]
      simp
    rw [hfilter]
    exact ringInv_drop_empty fn R _ A1 A2 pr hloop
  · rw [if_pos hmem]
    have hfa : A.filter (fun p => decide (p.1 ≠ node)) = A := by
      rw [List.filter_eq_self]
      intro p hp
      simp only [decide_eq_true_eq]
      intro heq
      apply hmem
      show node ∈ s.nodes
      rw [hinv.nodes_eq]
      exact List.mem_map.2 ⟨p, hp, heq⟩
    rw [hfa]
    exact hinv


lemma ringInv_toW (fn : HashFunc) (R : Nat) (s : HashRing) (A : Assignment)
    (h : RingInv fn R s A) : RingInvW fn R s A :=
  ⟨h.nodes_eq, h.nodes_nodup, h.idx_bound, h.idx_nodup, h.repl_eq,
   h.keys_perm, h.ring_keys_perm, h.lookups⟩

lemma ringInvW_sort (fn : HashFunc) (R : Nat) (s : HashRing) (A : Assignment)
    (hw : RingInvW fn R s A) :
    RingInv fn R { s with keys := s.keys.insertionSort (· ≤ ·) } A :=
  ⟨hw.nodes_eq, hw.nodes_nodup, hw.idx_bound, hw.idx_nodup, hw.repl_eq,
   List.sorted_insertionSort _ _,
   (List.perm_insertionSort _ _).trans hw.keys_perm,
   hw.ring_keys_perm, hw.lookups⟩

lemma inv_addStep (fn : HashFunc) (R : Nat) (N : List String)
    (hinj : HashInj fn R N) (node : String) (A0 : Assignment)
    (l : List Nat) (i : Nat) (hi : i < R) (hil : i ∉ l) (s : HashRing)
    (hsub : ∀ p ∈ A0 ++ [(node, l)], p.1 ∈ N)
    (hinv : RingInvW fn R s (A0 ++ [(node, l)])) :
    RingInvW fn R (s.addStep fn node i) (A0 ++ [(node, l ++ [i])]) := by
  have hn : node ∈ N := hsub (node, l) (by simp)
  have hfsts := fst_ne_of_split A0 [] node l hinv.nodes_nodup
  have hlnd : l.Nodup := hinv.idx_nodup (node, l) (by simp)
  have hlb : ∀ i' ∈ l, i' < R := hinv.idx_bound (node, l) (by simp)
  have hIns : insertedHashes fn (A0 ++ [(node, l)]) =
      insertedHashes fn A0 ++ nodeHashes fn (node, l) := by
    rw [insertedHashes_append, insertedHashes_cons]
    simp [insertedHashes]
  have hIns' : insertedHashes fn (A0 ++ [(node, l ++ [i])]) =
      insertedHashes fn A0 ++ (nodeHashes fn (node, l) ++
        [fn (replicaRepr node i)]) := by
    rw [insertedHashes_append, insertedHashes_cons]
    simp [insertedHashes, nodeHashes]
  have hnotIns : fn (replicaRepr node i) ∉
      insertedHashes fn (A0 ++ [(node, l)]) := by
    rw [mem_insertedHashes]
    rintro ⟨p, hp, i', hi', heq⟩
    rcases List.mem_append.1 hp with hp1 | hp2
    · have hb := hinv.idx_bound p (by simp [hp1]) i' hi'
      have := hinj p.1 (hsub p (by simp [hp1])) node hn i' hb i hi heq
      exact hfsts.1 p hp1 this.1
    · rcases List.mem_cons.1 hp2 with hpm | hp3
      · subst hpm
        have := hinj node hn node hn i' (hlb i' hi') i hi heq
        exact hil (this.2 ▸ hi')
      · simp at hp3
  have hring : fn (replicaRepr node i) ∉ s.ring.map Prod.fst :=
    fun hm => hnotIns (hinv.ring_keys_perm.mem_iff.1 hm)
  have hhasF : ringHas s.ring (fn (replicaRepr node i)) = false :=
    (ringHas_false_iff _ _).2 hring
  have hlookF : ringLookup s.ring (fn (replicaRepr node i)) = [] :=
    ringLookup_of_not_mem _ _ hring
  have hstep : s.addStep fn node i =
      { s with keys := s.keys ++ [fn (replicaRepr node i)],
               ring := s.ring ++ [(fn (replicaRepr node i), [node])] } := by
    simp only [HashRing.addStep]
    rw [ringSet, Repr, if_neg (by rw [hhasF]; exact fun h => nomatch h)]
    rw [hlookF]
    rfl
  rw [hstep]
  have hmapfst : (A0 ++ [(node, l ++ [i])]).map Prod.fst =
      (A0 ++ [(node, l)]).map Prod.fst := by simp
  refine ⟨?_, ?_, ?_, ?_, ?_, ?_, ?_, ?_⟩
  · show s.nodes = _
    rw [hmapfst]
    exact hinv.nodes_eq
  · rw [hmapfst]
    exact hinv.nodes_nodup
  · intro p hp i' hi'
    rcases List.mem_append.1 hp with hp1 | hp2
    · exact hinv.idx_bound p (by simp [hp1]) i' hi'
    · rcases List.mem_cons.1 hp2 with hpm | hp3
      · subst hpm
        rcases List.mem_append.1 hi' with h1 | h2
        · exact hlb i' h1
        · rw [List.mem_singleton.1 h2]
          exact hi
      · simp at hp3
  · intro p hp
    rcases List.mem_append.1 hp with hp1 | hp2
    · exact hinv.idx_nodup p (by simp [hp1])
    · rcases List.mem_cons.1 hp2 with hpm | hp3
      · subst hpm
        show (l ++ [i]).Nodup
        rw [List.nodup_append]
        exact ⟨hlnd, List.nodup_singleton i,
          fun a ha hb => hil ((List.mem_singleton.1 hb) ▸ ha)⟩
      · simp at hp3
  · exact hinv.repl_eq
  · show (s.keys ++ [fn (replicaRepr node i)]).Perm _
    rw [hIns', ← List.append_assoc, ← hIns]
    exact hinv.keys_perm.append_right _
  · show ((s.ring ++ [(fn (replicaRepr node i), [node])]).map Prod.fst).Perm _
    rw [List.map_append, hIns', ← List.append_assoc, ← hIns]
    exact hinv.ring_keys_perm.append_right _
  · intro p hp i' hi'
    show ringLookup (s.ring ++ [(fn (replicaRepr node i), [node])])
      (fn (replicaRepr p.1 i')) = [p.1]
    rcases List.mem_append.1 hp with hp1 | hp2
    · have hne : fn (replicaRepr p.1 i') ≠ fn (replicaRepr node i) := by
        intro heq
        have hb := hinv.idx_bound p (by simp [hp1]) i' hi'
        have := hinj p.1 (hsub p (by simp [hp1])) node hn i' hb i hi heq
        exact hfsts.1 p hp1 this.1
      rw [ringLookup_append_left _ _ _ _ hne]
      exact hinv.lookups p (by simp [hp1]) i' hi'
    · rcases List.mem_cons.1 hp2 with hpm | hp3
      · subst hpm
        rcases List.mem_append.1 hi' with h1 | h2
        · have hne : fn (replicaRepr node i') ≠ fn (replicaRepr node i) := by
            intro heq
            have := hinj node hn node hn i' (hlb i' h1) i hi heq
            exact hil (this.2 ▸ h1)
          rw [ringLookup_append_left _ _ _ _ hne]
          exact hinv.lookups (node, l) (by simp) i' h1
        · rw [List.mem_singleton.1 h2]
          exact ringLookup_append_right _ _ _ hring
      · simp at hp3


lemma inv_addLoop (fn : HashFunc) (R : Nat) (N : List String)
    (hinj : HashInj fn R N) (node : String) (A0 : Assignment)
    (js : List Nat) : ∀ (s : HashRing) (l : List Nat),
    (∀ j ∈ js, j < R) → js.Nodup → (∀ j ∈ js, j ∉ l) →
    (∀ p ∈ A0 ++ [(node, l)], p.1 ∈ N) →
    RingInvW fn R s (A0 ++ [(node, l)]) →
    RingInvW fn R (js.foldl (HashRing.addStep fn node) s)
      (A0 ++ [(node, l ++ js)]) := by
  induction js with
  | nil =>
    intro s l _ _ _ _ hinv
    simpa using hinv
  | cons j js ih =>
    intro s l hb hnd hdis hsub hinv
    simp only [List.foldl_cons]
    have hstep := inv_addStep fn R N hinj node A0 l j
      (hb j (List.mem_cons_self _ _)) (hdis j (List.mem_cons_self _ _)) s
      hsub hinv
    have hsub' : ∀ p ∈ A0 ++ [(node, l ++ [j])], p.1 ∈ N := by
      intro p hp
      rcases List.mem_append.1 hp with hp1 | hp2
      · exact hsub p (by simp [hp1])
      · rcases List.mem_cons.1 hp2 with hpm | hp3
        · subst hpm
          exact hsub (node, l) (by simp)
        · simp at hp3
    have := ih _ (l ++ [j]) (fun j' hj' => hb j' (List.mem_cons_of_mem _ hj'))
      (List.Nodup.of_cons hnd)
      (by
        intro j' hj' hm
        rcases List.mem_append.1 hm with h1 | h2
        · exact hdis j' (List.mem_cons_of_mem _ hj') h1
        · rw [List.mem_singleton.1 h2] at hj'
          exact (List.nodup_cons.1 hnd).1 hj')
      hsub' hstep
    rw [List.append_assoc] at this
    simpa using this

lemma inv_AddWithReplicas (fn : HashFunc) (R : Nat) (N : List String)
    (hinj : HashInj fn R N) (node : String) (hn : node ∈ N) (reps : Nat)
    (s : HashRing) (A : Assignment) (hsub : ∀ p ∈ A, p.1 ∈ N)
    (hinv : RingInv fn R s A) :
    RingInv fn R (s.AddWithReplicas fn node reps)
      (A.filter (fun p => decide (p.1 ≠ node)) ++
        [(node, List.range (min reps R))]) := by
  have hinv0 := inv_Remove fn R N hinj node s A hsub hinv
  set Af := A.filter (fun p => decide (p.1 ≠ node)) with hAf
  have hsub0 : ∀ p ∈ Af, p.1 ∈ N := fun p hp =>
    hsub p (List.mem_of_mem_filter hp)
  have hnotin : node ∉ (s.Remove fn node).nodes := by
    rw [hinv0.nodes_eq]
    intro hm
    obtain ⟨p, hp, hpf⟩ := List.mem_map.1 hm
    have := List.of_mem_filter hp
    rw [hpf] at this
    simp at this
  have hreps : (if reps > (s.Remove fn node).replicas
      then (s.Remove fn node).replicas else reps) = min reps R := by
    rw [hinv0.repl_eq]
    rcases le_or_lt reps R with h | h
    · rw [if_neg (by omega), Nat.min_def, if_pos h]
    · rw [if_pos h, Nat.min_def, if_neg (by omega)]
  rw [HashRing.AddWithReplicas]
  simp only [Repr]
  rw [hreps, if_neg hnotin]
  have hinvW1 : RingInvW fn R
      { s.Remove fn node with nodes := (s.Remove fn node).nodes ++ [node] }
      (Af ++ [(node, [])]) := by
    refine ⟨?_, ?_, ?_, ?_, ?_, ?_, ?_, ?_⟩
    · show (s.Remove fn node).nodes ++ [node] = _
      rw [hinv0.nodes_eq]
      simp
    · rw [List.map_append]
      rw [List.nodup_append]
      refine ⟨hinv0.nodes_nodup, by simp, ?_⟩
      intro a ha hb
      simp at hb
      rw [hb] at ha
      exact hnotin (hinv0.nodes_eq ▸ ha)
    · intro p hp i hi
      rcases List.mem_append.1 hp with hp1 | hp2
      · exact hinv0.idx_bound p hp1 i hi
      · rcases List.mem_cons.1 hp2 with hpm | hp3
        · subst hpm
          simp at hi
        · simp at hp3
    · intro p hp
      rcases List.mem_append.1 hp with hp1 | hp2
      · exact hinv0.idx_nodup p hp1
      · rcases List.mem_cons.1 hp2 with hpm | hp3
        · subst hpm
          exact List.nodup_nil
        · simp at hp3
    · exact hinv0.repl_eq
    · show (s.Remove fn node).keys.Perm _
      rw [insertedHashes_append]
      have : insertedHashes fn [(node, ([] : List Nat))] = [] := rfl
      rw [this, List.append_nil]
      exact hinv0.keys_perm
    · show (((s.Remove fn node).ring).map Prod.fst).Perm _
      rw [insertedHashes_append]
      have : insertedHashes fn [(node, ([] : List Nat))] = [] := rfl
      rw [this, List.append_nil]
      exact hinv0.ring_keys_perm
    · intro p hp i hi
      rcases List.mem_append.1 hp with hp1 | hp2
      · exact hinv0.lookups p hp1 i hi
      · rcases List.mem_cons.1 hp2 with hpm | hp3
        · subst hpm
          simp at hi
        · simp at hp3
  have hsub1 : ∀ p ∈ Af ++ [(node, ([] : List Nat))], p.1 ∈ N := by
    intro p hp
    rcases List.mem_append.1 hp with hp1 | hp2
    · exact hsub0 p hp1
    · rcases List.mem_cons.1 hp2 with hpm | hp3
      · subst hpm
        exact hn
      · simp at hp3
  have hloop := inv_addLoop fn R N hinj node Af (List.range (min reps R))
    _ [] (fun j hj => lt_of_lt_of_le (List.mem_range.1 hj) (Nat.min_le_right _ _))
    (List.nodup_range _) (by simp) hsub1 hinvW1
  simp only [List.nil_append] at hloop
  exact ringInvW_sort fn R _ _ hloop


lemma inv_init (fn : HashFunc) (R : Nat) :
    RingInv fn (clampR R) (NewCustomHashRing R) [] := by
  refine ⟨rfl, List.nodup_nil, ?_, ?_, rfl, List.sorted_nil, ?_, ?_, ?_⟩
  · intro p hp
    simp at hp
  · intro p hp
    simp at hp
  · exact List.Perm.refl _
  · exact List.Perm.refl _
  · intro p hp
    simp at hp

lemma inv_applyOp (fn : HashFunc) (R : Nat) (N : List String)
    (hinj : HashInj fn R N) (hR : 1 ≤ R) (op : RingOp)
    (hop : op.node ∈ N) (s : HashRing) (A : Assignment)
    (hsub : ∀ p ∈ A, p.1 ∈ N) (hinv : RingInv fn R s A) :
    ∃ A', RingInv fn R (s.applyOp fn op) A' ∧ (∀ p ∈ A', p.1 ∈ N) ∧
      (PosRep R op → (∀ p ∈ A, p.2 ≠ []) → ∀ p ∈ A', p.2 ≠ []) := by
  have hmemN : ∀ (n : String) (k : Nat) (p : String × List Nat),
      n ∈ N →
      p ∈ A.filter (fun q => decide (q.1 ≠ n)) ++ [(n, List.range k)] →
      p.1 ∈ N := by
    intro n k p hnN hp
    rcases List.mem_append.1 hp with hp1 | hp2
    · exact hsub p (List.mem_of_mem_filter hp1)
    · rcases List.mem_cons.1 hp2 with hpm | hp3
      · subst hpm
        exact hnN
      · simp at hp3
  have hne : ∀ (n : String) (k : Nat), 1 ≤ k →
      (∀ p ∈ A, p.2 ≠ []) →
      ∀ p ∈ A.filter (fun q => decide (q.1 ≠ n)) ++ [(n, List.range k)],
        p.2 ≠ [] := by
    intro n k hk hA p hp
    rcases List.mem_append.1 hp with hp1 | hp2
    · exact hA p (List.mem_of_mem_filter hp1)
    · rcases List.mem_cons.1 hp2 with hpm | hp3
      · subst hpm
        show List.range k ≠ []
        simp [List.range_eq_nil]
        omega
      · simp at hp3
  cases op with
  | add node =>
    refine ⟨A.filter (fun q => decide (q.1 ≠ node)) ++
      [(node, List.range (min s.replicas R))],
      inv_AddWithReplicas fn R N hinj node hop s.replicas s A hsub hinv,
      fun p hp => hmemN node _ p hop hp, ?_⟩
    intro _ hA
    apply hne node _ _ hA
    rw [hinv.repl_eq]
    omega
  | addWithReplicas node k =>
    refine ⟨A.filter (fun q => decide (q.1 ≠ node)) ++
      [(node, List.range (min k R))],
      inv_AddWithReplicas fn R N hinj node hop k s A hsub hinv,
      fun p hp => hmemN node _ p hop hp, ?_⟩
    intro hpos hA
    apply hne node _ _ hA
    have : 1 ≤ k := hpos
    omega
  | addWithWeight node w =>
    have heq : s.replicas * w / TopWeight = R * w / TopWeight := by
      rw [hinv.repl_eq]
    refine ⟨A.filter (fun q => decide (q.1 ≠ node)) ++
      [(node, List.range (min (s.replicas * w / TopWeight) R))],
      inv_AddWithReplicas fn R N hinj node hop _ s A hsub hinv,
      fun p hp => hmemN node _ p hop hp, ?_⟩
    intro hpos hA
    apply hne node _ _ hA
    have : 1 ≤ R * w / TopWeight := hpos
    omega
  | remove node =>
    refine ⟨A.filter (fun q => decide (q.1 ≠ node)),
      inv_Remove fn R N hinj node s A hsub hinv,
      fun p hp => hsub p (List.mem_of_mem_filter hp), ?_⟩
    intro _ hA p hp
    exact hA p (List.mem_of_mem_filter hp)

lemma inv_foldOps (fn : HashFunc) (R : Nat) (N : List String)
    (hinj : HashInj fn R N) (hR : 1 ≤ R) (ops : List RingOp) :
    ∀ (s : HashRing) (A : Assignment),
    (∀ op ∈ ops, op.node ∈ N) → (∀ p ∈ A, p.1 ∈ N) →
    RingInv fn R s A →
    ∃ A', RingInv fn R (ops.foldl (HashRing.applyOp fn) s) A' ∧
      (∀ p ∈ A', p.1 ∈ N) ∧
      ((∀ op ∈ ops, PosRep R op) → (∀ p ∈ A, p.2 ≠ []) →
        ∀ p ∈ A', p.2 ≠ []) := by
  induction ops with
  | nil =>
    intro s A _ hsub hinv
    exact ⟨A, hinv, hsub, fun _ h => h⟩
  | cons op ops ih =>
    intro s A hops hsub hinv
    obtain ⟨A1, hinv1, hsub1, hne1⟩ := inv_applyOp fn R N hinj hR op
      (hops op (List.mem_cons_self _ _)) s A hsub hinv
    obtain ⟨A', hinv', hsub', hne'⟩ := ih (s.applyOp fn op) A1
      (fun o ho => hops o (List.mem_cons_of_mem _ ho)) hsub1 hinv1
    refine ⟨A', by simpa using hinv', hsub', ?_⟩
    intro hpos hA
    exact hne' (fun o ho => hpos o (List.mem_cons_of_mem _ ho))
      (hne1 (hpos op (List.mem_cons_self _ _)) hA)

lemma inv_buildRing (fn : HashFunc) (R : Nat) (ops : List RingOp)
    (N : List String) (hinj : HashInj fn (clampR R) N)
    (hops : ∀ op ∈ ops, op.node ∈ N) :
    ∃ A, RingInv fn (clampR R) (buildRing fn R ops) A ∧
      (∀ p ∈ A, p.1 ∈ N) ∧
      ((∀ op ∈ ops, PosRep (clampR R) op) → ∀ p ∈ A, p.2 ≠ []) := by
  have hR : 1 ≤ clampR R := by
    rw [clampR, minReplicas]
    split <;> omega
  obtain ⟨A, h1, h2, h3⟩ := inv_foldOps fn (clampR R) N hinj hR ops
    (NewCustomHashRing R) [] hops (by intro p hp; simp at hp)
    (inv_init fn R)
  exact ⟨A, h1, h2, fun hpos => h3 hpos (by intro p hp; simp at hp)⟩


lemma selKey_mem (keys : List Nat) (h : Nat) (hne : keys ≠ []) :
    selKey keys h ∈ keys := by
  rw [selKey]
  have hlen : 0 < keys.length := List.length_pos.2 hne
  have hlt : (keys.findIdx (fun k => decide (h ≤ k))) % keys.length <
      keys.length := Nat.mod_lt _ hlen
  rw [List.getD_eq_getElem _ _ hlt]
  exact List.getElem_mem hlt

lemma selKey_min (keys : List Nat) (h : Nat)
    (hs : keys.Sorted (· ≤ ·)) (hex : ∃ k ∈ keys, h ≤ k) :
    h ≤ selKey keys h ∧ ∀ k ∈ keys, h ≤ k → selKey keys h ≤ k := by
  have hlt : keys.findIdx (fun k => decide (h ≤ k)) < keys.length := by
    rw [List.findIdx_lt_length]
    obtain ⟨k, hk, hhk⟩ := hex
    exact ⟨k, hk, by simpa using hhk⟩
  have hmod : (keys.findIdx (fun k => decide (h ≤ k))) % keys.length =
      keys.findIdx (fun k => decide (h ≤ k)) := Nat.mod_eq_of_lt hlt
  have hsel : selKey keys h = keys[keys.findIdx (fun k => decide (h ≤ k))] :=
    by rw [selKey, hmod, List.getD_eq_getElem _ _ hlt]
  constructor
  · rw [hsel]
    have := @List.findIdx_getElem _ (fun k => decide (h ≤ k)) keys hlt
    simpa using this
  · intro k hk hhk
    obtain ⟨jk, hjk, hjke⟩ := List.mem_iff_getElem.1 hk
    have hge : keys.findIdx (fun k => decide (h ≤ k)) ≤ jk := by
      by_contra hcon
      push_neg at hcon
      have := List.not_of_lt_findIdx hcon
      rw [hjke] at this
      simp at this
      omega
    rw [hsel, ← hjke]
    rcases Nat.eq_or_lt_of_le hge with heq | hlt2
    · exact Nat.le_of_eq (by congr 1)
    · exact (List.pairwise_iff_getElem.1 hs) _ _ hlt hjk hlt2

lemma selKey_wrap (keys : List Nat) (h : Nat) (hne : keys ≠ [])
    (hs : keys.Sorted (· ≤ ·)) (hall : ∀ k ∈ keys, ¬ h ≤ k) :
    ∀ k ∈ keys, selKey keys h ≤ k := by
  have hlen : 0 < keys.length := List.length_pos.2 hne
  have heq : keys.findIdx (fun k => decide (h ≤ k)) = keys.length := by
    rw [List.findIdx_eq_length]
    intro x hx
    simpa using hall x hx
  have hsel : selKey keys h = keys[0] := by
    rw [selKey, heq, Nat.mod_self, List.getD_eq_getElem _ _ hlen]
  intro k hk
  obtain ⟨jk, hjk, hjke⟩ := List.mem_iff_getElem.1 hk
  rw [hsel, ← hjke]
  rcases Nat.eq_zero_or_pos jk with h0 | hpos
  · subst h0
    exact le_rfl
  · exact (List.pairwise_iff_getElem.1 hs) _ _ hlen hjk hpos

lemma selKey_sub_eq (keys keys' : List Nat) (h : Nat)
    (hs : keys.Sorted (· ≤ ·)) (hs' : keys'.Sorted (· ≤ ·))
    (hne : keys ≠ []) (hne' : keys' ≠ [])
    (hsub : ∀ x ∈ keys', x ∈ keys) (hmem : selKey keys h ∈ keys') :
    selKey keys' h = selKey keys h := by
  by_cases hex : ∃ k ∈ keys, h ≤ k
  · obtain ⟨hle, hmin⟩ := selKey_min keys h hs hex
    have hex' : ∃ k ∈ keys', h ≤ k := ⟨selKey keys h, hmem, hle⟩
    obtain ⟨hle', hmin'⟩ := selKey_min keys' h hs' hex'
    exact le_antisymm (hmin' _ hmem hle)
      (hmin _ (hsub _ (selKey_mem keys' h hne')) hle')
  · push_neg at hex
    have hall : ∀ k ∈ keys, ¬ h ≤ k := fun k hk => by
      have := hex k hk
      omega
    have hall' : ∀ k ∈ keys', ¬ h ≤ k := fun k hk => hall k (hsub k hk)
    have hw := selKey_wrap keys h hne hs hall
    have hw' := selKey_wrap keys' h hne' hs' hall'
    exact le_antisymm (hw' _ hmem)
      (hw _ (hsub _ (selKey_mem keys' h hne')))

lemma get_of_lookup_singleton (fn : HashFunc) (s : HashRing) (v : String)
    (m : String) (hring : ¬ s.ring.length = 0) (hkeys : ¬ s.keys.length = 0)
    (hslot : ringLookup s.ring (selKey s.keys (fn (Repr v))) = [m]) :
    s.Get fn v = .ok (some m, true) := by
  rw [selKey] at hslot
  simp only [HashRing.Get]
  rw [if_neg hring, if_neg hkeys, hslot]

lemma specSelect_of_lookup_singleton (fn : HashFunc) (s : HashRing)
    (v : String) (m : String)
    (hslot : ringLookup s.ring (selKey s.keys (fn (Repr v))) = [m]) :
    specSelect fn s v = some m := by
  rw [selKey] at hslot
  simp only [specSelect]
  have hle := @List.findIdx_le_length _ (fun k => decide (fn (Repr v) ≤ k))
    s.keys
  rcases Nat.eq_or_lt_of_le hle with heq | hlt
  · rw [if_pos heq]
    rw [heq, Nat.mod_self] at hslot
    rw [hslot]
  · rw [if_neg (by omega)]
    rw [Nat.mod_eq_of_lt hlt] at hslot
    rw [hslot]


lemma get_falsifies_empty (fn : HashFunc) (s : HashRing) (v : String)
    (m : String) (hGet : s.Get fn v = .ok (some m, true)) :
    ¬ s.ring.length = 0 ∧ ¬ s.keys.length = 0 := by
  constructor
  · intro h0
    rw [HashRing.Get, if_pos h0] at hGet
    simp at hGet
  · intro h0
    by_cases hr : s.ring.length = 0
    · rw [HashRing.Get, if_pos hr] at hGet
      simp at hGet
    · rw [HashRing.Get, if_neg hr] at hGet
      simp only [if_pos h0] at hGet
      simp at hGet

/-- the slot the invariant assigns to the selected key is the singleton
of its owner. -/
lemma inv_selKey_owner (fn : HashFunc) (R : Nat) (s : HashRing)
    (A : Assignment) (hinv : RingInv fn R s A) (h : Nat)
    (hkeys : s.keys ≠ []) :
    ∃ p ∈ A, ∃ i ∈ p.2, fn (replicaRepr p.1 i) = selKey s.keys h ∧
      ringLookup s.ring (selKey s.keys h) = [p.1] := by
  have hmem : selKey s.keys h ∈ s.keys := selKey_mem s.keys h hkeys
  have hins : selKey s.keys h ∈ insertedHashes fn A :=
    hinv.keys_perm.mem_iff.1 hmem
  obtain ⟨p, hp, i, hi, heq⟩ := (mem_insertedHashes fn A _).1 hins
  refine ⟨p, hp, i, hi, heq, ?_⟩
  rw [← heq]
  exact hinv.lookups p hp i hi

lemma remove_preserves_get (fn : HashFunc) (R : Nat) (N : List String)
    (hinj : HashInj fn R N) (s : HashRing) (A : Assignment)
    (hsub : ∀ p ∈ A, p.1 ∈ N) (hinv : RingInv fn R s A)
    (n v m : String) (hGet : s.Get fn v = .ok (some m, true)) (hmn : m ≠ n) :
    (s.Remove fn n).Get fn v = .ok (some m, true) := by
  obtain ⟨hring, hkeys⟩ := get_falsifies_empty fn s v m hGet
  have hkeys' : s.keys ≠ [] := by
    intro h
    exact hkeys (by rw [h]; rfl)
  obtain ⟨p, hp, i, hi, hpk, hslot⟩ :=
    inv_selKey_owner fn R s A hinv (fn (Repr v)) hkeys'
  have hGet2 := get_of_lookup_singleton fn s v p.1 hring hkeys hslot
  rw [hGet] at hGet2
  have hpm : p.1 = m := by
    injection hGet2 with h1
    injection h1 with h2 h3
    injection h2 with h4
    exact h4.symm
  have hinv' := inv_Remove fn R N hinj n s A hsub hinv
  have hpA' : p ∈ A.filter (fun q => decide (q.1 ≠ n)) := by
    rw [List.mem_filter]
    exact ⟨hp, by simp [hpm, hmn]⟩
  have hins' : selKey s.keys (fn (Repr v)) ∈
      insertedHashes fn (A.filter (fun q => decide (q.1 ≠ n))) := by
    rw [mem_insertedHashes]
    exact ⟨p, hpA', i, hi, hpk⟩
  have hk'mem : selKey s.keys (fn (Repr v)) ∈ (s.Remove fn n).keys :=
    hinv'.keys_perm.mem_iff.2 hins'
  have hkeys'' : (s.Remove fn n).keys ≠ [] := List.ne_nil_of_mem hk'mem
  have hring'' : ¬ (s.Remove fn n).ring.length = 0 := by
    have hm : selKey s.keys (fn (Repr v)) ∈
        (s.Remove fn n).ring.map Prod.fst :=
      hinv'.ring_keys_perm.mem_iff.2 hins'
    intro h0
    have := List.ne_nil_of_mem hm
    rw [← List.length_pos] at this
    rw [List.length_map] at this
    omega
  have hsub' : ∀ x ∈ (s.Remove fn n).keys, x ∈ s.keys := by
    intro x hx
    have hxi := hinv'.keys_perm.mem_iff.1 hx
    rw [mem_insertedHashes] at hxi
    obtain ⟨q, hq, i', hi', heq'⟩ := hxi
    apply hinv.keys_perm.mem_iff.2
    rw [mem_insertedHashes]
    exact ⟨q, List.mem_of_mem_filter hq, i', hi', heq'⟩
  have hsel_eq : selKey (s.Remove fn n).keys (fn (Repr v)) =
      selKey s.keys (fn (Repr v)) :=
    selKey_sub_eq s.keys (s.Remove fn n).keys (fn (Repr v))
      hinv.keys_sorted hinv'.keys_sorted hkeys' hkeys'' hsub' hk'mem
  have hslot' : ringLookup (s.Remove fn n).ring
      (selKey (s.Remove fn n).keys (fn (Repr v))) = [m] := by
    rw [hsel_eq, ← hpk, hinv'.lookups p hpA' i hi, hpm]
  have hk2 : ¬ (s.Remove fn n).keys.length = 0 := by
    intro h0
    exact hkeys'' (List.length_eq_zero.1 h0)
  exact get_of_lookup_singleton fn (s.Remove fn n) v m hring'' hk2 hslot'

lemma get_member (fn : HashFunc) (R : Nat) (s : HashRing) (A : Assignment)
    (hinv : RingInv fn R s A) (hA : A ≠ []) (hAne : ∀ p ∈ A, p.2 ≠ [])
    (v : String) :
    ∃ m, s.Get fn v = .ok (some m, true) ∧ m ∈ s.nodes ∧
      specSelect fn s v = some m := by
  have hins_ne : insertedHashes fn A ≠ [] := by
    obtain ⟨q, A0, rfl⟩ := List.exists_cons_of_ne_nil hA
    rw [insertedHashes_cons]
    intro h0
    rcases List.append_eq_nil.1 h0 with ⟨h1, -⟩
    have := hAne q (List.mem_cons_self _ _)
    rw [nodeHashes] at h1
    exact this (List.map_eq_nil_iff.1 h1)
  have hkeys' : s.keys ≠ [] := by
    intro h0
    apply hins_ne
    have := hinv.keys_perm.length_eq
    rw [h0] at this
    simp at this
    exact List.length_eq_zero.1 this.symm
  have hring : ¬ s.ring.length = 0 := by
    intro h0
    apply hins_ne
    have := hinv.ring_keys_perm.length_eq
    rw [List.length_map, h0] at this
    exact List.length_eq_zero.1 this.symm
  have hkeys : ¬ s.keys.length = 0 := by
    intro h0
    exact hkeys' (List.length_eq_zero.1 h0)
  obtain ⟨p, hp, i, hi, hpk, hslot⟩ :=
    inv_selKey_owner fn R s A hinv (fn (Repr v)) hkeys'
  refine ⟨p.1, get_of_lookup_singleton fn s v p.1 hring hkeys hslot, ?_,
    specSelect_of_lookup_singleton fn s v p.1 hslot⟩
  rw [hinv.nodes_eq]
  exact List.mem_map.2 ⟨p, hp, rfl⟩

lemma strictChain_pairwise : ∀ l : List Nat, strictChain l = true →
    l.Pairwise (· < ·)
  | [] => by
    intro _
    exact List.Pairwise.nil
  | [a] => by
    intro _
    simp
  | a :: b :: rest => by
    intro h
    rw [strictChain, Bool.and_eq_true] at h
    have ih := strictChain_pairwise (b :: rest) h.2
    have hab : a < b := by simpa using h.1
    refine List.Pairwise.cons ?_ ih
    intro x hx
    rcases List.mem_cons.1 hx with h1 | h2
    · rw [h1]
      exact hab
    · exact lt_trans hab (List.rel_of_pairwise_cons ih h2)

lemma nodup_of_strictChain (l : List Nat) (h : strictChain l = true) :
    l.Nodup :=
  (strictChain_pairwise l h).imp Nat.ne_of_lt

lemma range256_split :
    List.range 256 = List.range' 0 128 ++ List.range' 128 128 := by
  rw [List.range_eq_range', List.range'_append]


/-- C4 counterexample: on the ring built by three single-replica adds
whose replica hashes all collide at 5 under `fn4`, the lookup of `"v"`
returns member `a`, distinct from `n`; yet after `Remove n` the same
lookup returns `b` — the removal changed an ownership that did not
belong to the removed node, because shrinking the shared slot shifts
the secondary index `3 % len`. -/
theorem ring_remove_cex :
    (buildRing fn4 0 ops4).Get fn4 "v" = .ok (some "a", true) ∧
    ("a" : String) ≠ "n" ∧
    ((buildRing fn4 0 ops4).Remove fn4 "n").Get fn4 "v" =
      .ok (some "b", true) := by
  have hbuild : buildRing fn4 0 ops4 = ringS3 := by decide
  have hrem : ringS3.Remove fn4 "n" = ringS4 := by
    rw [HashRing.Remove]
    rw [if_neg (by decide : ¬ ¬ (Repr "n" ∈ ringS3.nodes))]
    have hrep : ringS3.replicas = 256 := rfl
    rw [hrep, range256_split, List.foldl_append]
    have h1 : (List.range' 0 128).foldl
        (HashRing.removeStep fn4 (Repr "n")) ringS3 = ringS3mid := by decide
    rw [h1]
    have h2 : (List.range' 128 128).foldl
        (HashRing.removeStep fn4 (Repr "n")) ringS3mid = ringS3mid := by
      decide
    rw [h2]
    decide
  refine ⟨?_, by decide, ?_⟩
  · rw [hbuild]
    decide
  · rw [hbuild, hrem]
    decide

/-- C4 (amended): for a ring built by any operation sequence whose
replica hashes are collision-free, if `Get v` selects a member `m`
different from `n`, then after `Remove n` it still selects `m`: removal
re-assigns only keys owned by the removed node. -/
theorem ring_remove_spec (fn : HashFunc) (R : Nat) (ops : List RingOp)
    (n v m : String) (hcf : CollisionFree fn (clampR R) (opsNodes ops))
    (hGet : (buildRing fn R ops).Get fn v = .ok (some m, true))
    (hmn : m ≠ n) :
    ((buildRing fn R ops).Remove fn n).Get fn v = .ok (some m, true) := by
  have hinj := collisionFree_hashInj fn (clampR R) (opsNodes ops) hcf
  obtain ⟨A, hinv, hsubA, -⟩ := inv_buildRing fn R ops (opsNodes ops) hinj
    (fun op hop => List.mem_map.2 ⟨op, hop, rfl⟩)
  exact remove_preserves_get fn (clampR R) (opsNodes ops) hinj _ A hsubA
    hinv n v m hGet hmn

lemma cfW2 : CollisionFree fnW (clampR 0) (opsNodes opsW) := by
  unfold CollisionFree
  apply nodup_of_strictChain
  decide

lemma cfW1 : CollisionFree fnW (clampR 0) (opsNodes opsW5) := by
  unfold CollisionFree
  apply nodup_of_strictChain
  decide

lemma posW : ∀ op ∈ opsW5, PosRep (clampR 0) op := by
  intro op hop
  rw [opsW5, List.mem_singleton] at hop
  subst hop
  exact le_rfl

/-- C4 witness: a collision-free two-member ring on which `Get "a"`
selects `a`, and removal of `b` preserves that. -/
theorem ring_remove_spec_witness :
    CollisionFree fnW (clampR 0) (opsNodes opsW) ∧
    (buildRing fnW 0 opsW).Get fnW "a" = .ok (some "a", true) ∧
    ("a" : String) ≠ "b" ∧
    ((buildRing fnW 0 opsW).Remove fnW "b").Get fnW "a" =
      .ok (some "a", true) :=
  ⟨cfW2, by decide, by decide,
   ring_remove_spec fnW 0 opsW "b" "a" "a" cfW2 (by decide) (by decide)⟩

/-- C5 counterexample: a ring holding one member added with zero
replicas answers `Get` with `(nil, false)`; and a two-member ring whose
colliding keys were all excised by removing one member — leaving the
ring map non-empty but the key array empty — makes `Get` divide by
zero. -/
theorem ring_get_cex :
    ((buildRing fn4 0 [.addWithReplicas "a" 0]).GetNodesCount = 1 ∧
     (buildRing fn4 0 [.addWithReplicas "a" 0]).Get fn4 "v" =
       .ok (none, false)) ∧
    ((buildRing fn5 0 ops5).GetNodesCount = 1 ∧
     (buildRing fn5 0 ops5).Get fn5 "v" = .error .divByZero) := by
  refine ⟨by decide, ?_⟩
  have hpre : List.foldl (HashRing.applyOp fn5) (NewCustomHashRing 0)
      [RingOp.addWithReplicas "a" 1, RingOp.addWithReplicas "b" 1] =
      ringT2 := by decide
  have hsplit : buildRing fn5 0 ops5 = ringT2.Remove fn5 "a" := by
    show List.foldl (HashRing.applyOp fn5) (NewCustomHashRing 0)
      ([RingOp.addWithReplicas "a" 1, RingOp.addWithReplicas "b" 1] ++
        [RingOp.remove "a"]) = _
    rw [List.foldl_append, hpre]
    rfl
  have hrem : ringT2.Remove fn5 "a" = ringT5 := by
    rw [HashRing.Remove]
    rw [if_neg (by decide : ¬ ¬ (Repr "a" ∈ ringT2.nodes))]
    have hrep : ringT2.replicas = 256 := rfl
    rw [hrep, range256_split, List.foldl_append]
    have h1 : (List.range' 0 128).foldl
        (HashRing.removeStep fn5 (Repr "a")) ringT2 = ringT2mid := by decide
    rw [h1]
    have h2 : (List.range' 128 128).foldl
        (HashRing.removeStep fn5 (Repr "a")) ringT2mid = ringT2mid := by
      decide
    rw [h2]
    decide
  rw [hsplit, hrem]
  exact ⟨by decide, by decide⟩

/-- C5 (amended): for a ring built by a collision-free operation
sequence in which every add places at least one replica, if the ring
holds at least one member then `Get v` returns `(member, true)` and the
member is exactly the one the spec algorithm (`specSelect`) computes. -/
theorem ring_get_spec (fn : HashFunc) (R : Nat) (ops : List RingOp)
    (v : String) (hcf : CollisionFree fn (clampR R) (opsNodes ops))
    (hpos : ∀ op ∈ ops, PosRep (clampR R) op)
    (hmem : (buildRing fn R ops).GetNodesCount ≠ 0) :
    ∃ m, (buildRing fn R ops).Get fn v = .ok (some m, true) ∧
      m ∈ (buildRing fn R ops).nodes ∧
      specSelect fn (buildRing fn R ops) v = some m := by
  have hinj := collisionFree_hashInj fn (clampR R) (opsNodes ops) hcf
  obtain ⟨A, hinv, hsubA, hne⟩ := inv_buildRing fn R ops (opsNodes ops) hinj
    (fun op hop => List.mem_map.2 ⟨op, hop, rfl⟩)
  have hA : A ≠ [] := by
    intro h0
    apply hmem
    show (buildRing fn R ops).nodes.length = 0
    rw [hinv.nodes_eq, h0]
    rfl
  exact get_member fn (clampR R) _ A hinv hA (hne hpos) v

/-- C5 witness: a collision-free singleton ring on which `Get "x"`
wraps past the end of the key array and returns the member. -/
theorem ring_get_spec_witness :
    CollisionFree fnW (clampR 0) (opsNodes opsW5) ∧
    (∀ op ∈ opsW5, PosRep (clampR 0) op) ∧
    (buildRing fnW 0 opsW5).GetNodesCount ≠ 0 ∧
    (∃ m, (buildRing fnW 0 opsW5).Get fnW "x" = .ok (some m, true) ∧
      m ∈ (buildRing fnW 0 opsW5).nodes ∧
      specSelect fnW (buildRing fnW 0 opsW5) "x" = some m) :=
  ⟨cfW1, posW, by decide,
   ring_get_spec fnW 0 opsW5 "x" cfW1 posW (by decide)⟩

end MC
